import Mathlib

/-!
A shallow embedding of `alchemyjsonschema/__init__.py`: the model-walking and
schema-assembly core that converts an ORM model graph into a JSON-Schema
document.  Python dicts are embedded as ordered association lists (`JDict`),
Python exceptions as an `Except` error type, and the mutable traversal-history
list shared between walkers as explicitly threaded state (`HistRef` records
whether a walker's `self.history` is its own fixed list or an alias of the
shared list, mirroring `history or []` in `BaseModelWalker.__init__`).
General recursion of `_build_properties` is embedded with a fuel parameter;
termination is proved separately as a fuel-sufficiency theorem.
-/

/-- Embedded JSON values (only the shapes produced by the source are needed). -/
inductive JVal where
  | s (v : String)
  | n (v : Nat)
  | arr (vs : List JVal)
  | obj (kvs : List (String × JVal))

/-- A Python dict with string keys, as an ordered association list
(insertion order preserved, keys unique by construction). -/
abbrev JDict := List (String × JVal)

/-- Payload of the single `InvalidStatus` exception class of the source. -/
inductive InvKind where
  | conflict (includes excludes : List String)
  | notFound (cls : String)
  | overridesUnused (keys : List String)
deriving DecidableEq

/-- Python exceptions raised (or raisable) by the embedded code. -/
inductive PyErr where
  | invalidStatus (k : InvKind)
  | keyError (k : String)
  | nameError (s : String)
  | attributeError (s : String)
  | indexError
  | notImplemented
  | typeError (s : String)
deriving DecidableEq

/-- Build-level outcome: a Python exception, or exhaustion of the embedding's
fuel (which never happens for sufficient fuel; see the termination theorem). -/
inductive BuildErr where
  | py (e : PyErr)
  | outOfFuel
deriving DecidableEq

/-- `d.get(k)`-style lookup in an ordered association list. -/
def alist_get {α : Type} : List (String × α) → String → Option α
  | [], _ => none
  | kv :: rest, k => if kv.1 == k then some kv.2 else alist_get rest k

/-- `d[k] = v`: replace in place if the key exists, else append (dict order). -/
def dict_setitem (d : JDict) (k : String) (v : JVal) : JDict :=
  if d.any (fun kv => kv.1 == k) then d.map (fun kv => if kv.1 == k then (k, v) else kv)
  else d ++ [(k, v)]

/-- `d[k]` with `KeyError` on a missing key. -/
def dict_getitem (d : JDict) (k : String) : Except PyErr JVal :=
  match alist_get d k with
  | some v => .ok v
  | none => .error (.keyError k)

/-- `d.pop(k)` with `KeyError` on a missing key. -/
def dict_pop (d : JDict) (k : String) : Except PyErr (JVal × JDict) :=
  match alist_get d k with
  | some v => .ok (v, d.filter (fun kv => kv.1 ≠ k))
  | none => .error (.keyError k)

/-- Does the JSON value equal the given Python string (`val == "array"` etc.)? -/
def jval_is (v : JVal) (s : String) : Bool :=
  match v with
  | .s x => x == s
  | _ => false

/-- A native column type instance.  `clsName` is the name of its Python class,
`isDecorator` whether `isinstance(k, t.TypeDecorator)` holds, `impl` the
wrapped implementation type of a decorator, `length` / `enums` / `itemType`
the attributes consulted by the restriction rules and the array branch. -/
inductive ColType where
  | mk (clsName : String) (isDecorator : Bool) (impl : Option ColType)
       (length : Option Nat) (enums : List String) (itemType : Option ColType)

def ColType.clsName : ColType → String
  | .mk c _ _ _ _ _ => c

def ColType.isDecorator : ColType → Bool
  | .mk _ d _ _ _ _ => d

def ColType.impl : ColType → Option ColType
  | .mk _ _ i _ _ _ => i

def ColType.length : ColType → Option Nat
  | .mk _ _ _ l _ _ => l

def ColType.enums : ColType → List String
  | .mk _ _ _ _ e _ => e

def ColType.itemType : ColType → Option ColType
  | .mk _ _ _ _ _ it => it

/-- `default_column_to_schema` of the source, keyed by class name. -/
def default_column_to_schema : List (String × String) :=
  [("JSON", "object"), ("UUID", "string"),
   ("String", "string"), ("Text", "string"), ("Integer", "integer"),
   ("SmallInteger", "integer"), ("BigInteger", "string"), ("Numeric", "number"),
   ("Float", "number"), ("DateTime", "string"), ("Date", "string"),
   ("Time", "string"), ("LargeBinary", "xxxLargeBinary"), ("Binary", "xxxBinary"),
   ("Boolean", "boolean"), ("Unicode", "string"), ("Concatenable", "array"),
   ("UnicodeText", "string"), ("Interval", "xxxInterval"), ("Enum", "string")]

/-- The `for sc in cls.mro(): if sc in self.mapping: return (sc, mapping[sc])`
loop of `Classifier.__getitem__`. -/
def mro_find (mapping : List (String × String)) : List String → Option (String × String)
  | [] => none
  | c :: rest =>
    match alist_get mapping c with
    | some v => some (c, v)
    | none => mro_find mapping rest

/-- `Classifier.__getitem__` (source lines 115-128): unwrap a type decorator
once to its `impl`, try an exact class match in the mapping, then walk the
method-resolution order; `InvalidStatus` when nothing matches.  `classMro`
gives `cls.mro()` for each class name (the class itself first). -/
def classifier_getitem (classMro : String → List String)
    (mapping : List (String × String)) (k : ColType) : Except PyErr (String × String) := do
  let k ← if k.isDecorator then
      match k.impl with
      | some i => pure i
      | none => .error (.attributeError "impl")
    else pure k
  let cls := k.clsName
  match alist_get mapping cls with
  | some v => pure (cls, v)
  | none =>
    match mro_find mapping (classMro cls) with
    | some cv => pure cv
    | none => .error (.invalidStatus (.notFound cls))

/-- A table column as seen through the reflection interface. -/
structure Column where
  name : String
  ctype : ColType
  nullable : Bool := true
  hasDefault : Bool := false
  foreignKeys : Bool := false
  doc : Option String := none
  typeIsVisitableType : Bool := false

/-- `string_max_length` (source lines 81-83). -/
def string_max_length (column : Column) (sub : JDict) : JDict :=
  match column.ctype.length with
  | some l => dict_setitem sub "maxLength" (.n l)
  | none => sub

/-- `enum_one_of` (source lines 86-87). -/
def enum_one_of (column : Column) (sub : JDict) : JDict :=
  dict_setitem sub "enum" (.arr (column.ctype.enums.map JVal.s))

/-- `datetime_format` (source lines 90-91). -/
def datetime_format (_column : Column) (sub : JDict) : JDict :=
  dict_setitem sub "format" (.s "date-time")

/-- `date_format` (source lines 94-95). -/
def date_format (_column : Column) (sub : JDict) : JDict :=
  dict_setitem sub "format" (.s "date")

/-- `time_format` (source lines 98-99). -/
def time_format (_column : Column) (sub : JDict) : JDict :=
  dict_setitem sub "format" (.s "time")

/-- `default_restriction_dict` of the source, keyed by class name. -/
def default_restriction_dict : List (String × (Column → JDict → JDict)) :=
  [("String", string_max_length), ("Enum", enum_one_of), ("DateTime", datetime_format),
   ("Date", date_format), ("Time", time_format)]

/-- `SchemaFactory._add_restriction_if_found` (source lines 389-395):
walk `itype.mro()` applying every registered rule until `TypeEngine`. -/
def add_restriction_if_found (restrictions : List (String × (Column → JDict → JDict)))
    (column : Column) : List String → JDict → JDict
  | [], sub => sub
  | tcls :: rest, sub =>
    if tcls = "TypeEngine" then sub
    else
      match alist_get restrictions tcls with
      | some fn => add_restriction_if_found restrictions column rest (fn column sub)
      | none => add_restriction_if_found restrictions column rest sub

/-- `SchemaFactory._clean_doc`: whitespace-normalize a doc string. -/
def clean_doc (doc : String) : String :=
  String.intercalate " " ((doc.split Char.isWhitespace).filter (fun s => s ≠ ""))

/-- Relationship traversal direction (`sqlalchemy.orm.base`). -/
inductive Direction where
  | onetomany
  | manytoone
  | manytomany
deriving DecidableEq

/-- A `RelationshipProperty` through the reflection interface.  Identity
matters for the history check (`prop not in self.history` is object identity
in Python); a relationship property is identified by its owning model and
key, which this value-level record makes structural. -/
structure RelProp where
  owner : String
  key : String
  target : String
  direction : Direction
  backPopulates : Option String := none
  backref : Option String := none
  localColumns : List String := []
  remoteSide : List String := []
deriving DecidableEq

/-- A mapper property: `ColumnProperty` or `RelationshipProperty`. -/
inductive MProp where
  | colp (key : String) (columns : List Column)
  | relp (r : RelProp)

def prop_key : MProp → String
  | .colp k _ => k
  | .relp r => r.key

/-- `getattr(prop, "columns", Empty)`. -/
def prop_columns : MProp → List Column
  | .colp _ cs => cs
  | .relp _ => []

/-- A mapped model (`inspect(model).mapper` view): declared class name,
`_tablename`, doc string, the ordered columns of `local_table`, the
`_props` name-to-property mapping and the ordered `relationships`. -/
structure Model where
  name : String
  tableName : String
  doc : Option String := none
  columns : List Column := []
  props : List (String × MProp) := []
  relationships : List MProp := []

/-- The model graph known to `inspect` (the external reflection collaborator). -/
structure Graph where
  models : List Model

/-- Resolve a related model (`prop.mapper`). -/
def find_model (g : Graph) (name : String) : Except PyErr Model :=
  match g.models.find? (fun m => m.name == name) with
  | some m => .ok m
  | none => .error (.attributeError "mapper")

/-- `mapper._props[c.name]` with `KeyError` on a missing key. -/
def props_getitem (m : Model) (k : String) : Except PyErr MProp :=
  match alist_get m.props k with
  | some p => .ok p
  | none => .error (.keyError k)

/-- The column half of `AlsoChildrenWalker.iterate`: look up
`mapper._props[c.name]` for each column of the local table, in order. -/
def iterate_cols (m : Model) : List Column → Except PyErr (List MProp)
  | [] => .ok []
  | c :: rest => do
    let p ← props_getitem m c.name
    let ps ← iterate_cols m rest
    pure (p :: ps)

/-- `AlsoChildrenWalker.iterate` (source lines 178-183): the column-backed
properties in declared column order, then the relationships. -/
def iterate_props (m : Model) : Except PyErr (List MProp) := do
  let colProps ← iterate_cols m m.columns
  pure (colProps ++ m.relationships)

/-- Whether a walker's `self.history` is its own private list (the root
walker, built with `history=None`, and clones receiving an empty history:
`history or []` creates a fresh list then) or an alias of the shared
traversal-history list threaded through `_build_properties`. -/
inductive HistRef where
  | fixed (h : List RelProp)
  | shared
deriving DecidableEq

/-- An `AlsoChildrenWalker` (`StructuralWalker`) instance. -/
structure WalkerS where
  model : Model
  includes : Option (List String)
  excludes : Option (List String)
  hist : HistRef

/-- The walker's `self.history`, given the current shared history list. -/
def hist_of (w : WalkerS) (cur : List RelProp) : List RelProp :=
  match w.hist with
  | .fixed h => h
  | .shared => cur

/-- Python truthiness of an optional list argument (`None` and `[]` falsy). -/
def py_truthy_list (o : Option (List String)) : Bool :=
  match o with
  | none => false
  | some l => !l.isEmpty

/-- The includes/excludes conflict check of `BaseModelWalker.__init__`
(source lines 140-142): `if includes and excludes: if
set(includes).intersection(excludes): raise InvalidStatus`. -/
def base_walker_check (includes excludes : Option (List String)) : Except PyErr Unit :=
  if py_truthy_list includes && py_truthy_list excludes then
    if ((includes.getD []).filter (fun k => (excludes.getD []).contains k)).isEmpty then .ok ()
    else .error (.invalidStatus (.conflict (includes.getD []) (excludes.getD [])))
  else .ok ()

/-- `SchemaFactory.__call__` line 359: `self.walker(model, includes=includes,
excludes=excludes)` — a root walker with its own empty history list. -/
def mk_root_walker (m : Model) (includes excludes : Option (List String)) :
    Except PyErr WalkerS :=
  (base_walker_check includes excludes).map fun _ =>
    { model := m, includes := includes, excludes := excludes, hist := .fixed [] }

/-- The filter applied by `AlsoChildrenWalker.walk` (source lines 185-192) to
each iterated property, evaluated against the walker's history at yield time
(`cur` is the shared history list's current contents). -/
def walk_accepts (w : WalkerS) (cur : List RelProp) (p : MProp) : Bool :=
  (match w.includes with
   | none => true
   | some l => l.contains (prop_key p)) &&
  (match w.excludes with
   | none => true
   | some l => !(l.contains (prop_key p))) &&
  (match p with
   | .colp _ _ => true
   | .relp r => !((hist_of w cur).contains r)) &&
  !((prop_columns p).any (fun c => c.foreignKeys))

/-- `e.startswith(prefix)`, computed on the underlying character lists. -/
def str_starts_with (p e : String) : Bool :=
  p.data.isPrefixOf e.data

/-- The characters after the first occurrence of the (non-empty) separator. -/
def chars_after_first (sep : List Char) : List Char → Option (List Char)
  | [] => none
  | c :: rest =>
    if sep.isPrefixOf (c :: rest) then some ((c :: rest).drop sep.length)
    else chars_after_first sep rest

/-- `e.split(splitter, 1)[1]` when `splitter` occurs in `e` — everything
after the first occurrence of the splitter. -/
def split_rest (splitter e : String) : Option String :=
  (chars_after_first splitter.data e.data).map String.mk

/-- `get_children` (source lines 244-251) on a list-or-None parameter. -/
def get_children_list (name : String) (params : Option (List String))
    (splitter : String) (dflt : Option (List String)) : Option (List String) :=
  match params with
  | some l =>
    some (l.filterMap (fun e =>
      if str_starts_with (name ++ splitter) e then split_rest splitter e else none))
  | none => dflt

/-- A caller-supplied override value: a schema fragment or the pop marker. -/
inductive OVal where
  | v (j : JVal)
  | pop

/-- `get_children` on a dict parameter (the overrides mapping). -/
def get_children_dict (name : String) (params : List (String × OVal))
    (splitter : String) : List (String × OVal) :=
  params.filterMap (fun kv =>
    if str_starts_with (name ++ splitter) kv.1 then (split_rest splitter kv.1).map (fun t => (t, kv.2))
    else none)

/-- `CollectionForOverrides`: the caller's overrides plus the not-yet-consumed
key set (`set(params.keys())`, embedded as a duplicate-free list). -/
structure Overrides where
  params : List (String × OVal)
  notUsedKeys : List String

/-- `CollectionForOverrides.__init__`. -/
def mk_overrides (params : List (String × OVal)) : Overrides :=
  { params := params, notUsedKeys := params.map (·.1) }

/-- `set.remove` with `KeyError` on a missing element. -/
def set_remove (s : List String) (k : String) : Except PyErr (List String) :=
  if s.contains k then .ok (s.erase k) else .error (.keyError k)

/-- The `for k, v in self.params.items()` loop of
`CollectionForOverrides.overrides`: pop or assign each pair into the given
field schema and remove each key from the not-used set (`KeyError` when
already removed). -/
def overrides_apply_go : List (String × OVal) → List String → JDict →
    Except PyErr (List String × JDict)
  | [], nu, d => .ok (nu, d)
  | kv :: rest, nu, d => do
    let d ← match kv.2 with
      | .pop => (dict_pop d kv.1).map (·.2)
      | .v j => pure (dict_setitem d kv.1 j)
    let nu ← set_remove nu kv.1
    overrides_apply_go rest nu d

/-- `CollectionForOverrides.overrides` (source lines 266-272): iterate over
ALL params, writing every pair into the one field schema at hand. -/
def overrides_apply (ov : Overrides) (basedict : JDict) : Except PyErr (Overrides × JDict) :=
  (overrides_apply_go ov.params ov.notUsedKeys basedict).map
    (fun x => ({ params := ov.params, notUsedKeys := x.1 }, x.2))

/-- `k in overrides` (`CollectionForOverrides.__contains__`). -/
def overrides_contains (ov : Overrides) (k : String) : Bool :=
  ov.params.any (fun kv => kv.1 == k)

/-- Which relation-decision policy the factory is configured with. -/
inductive DecisionKind where
  | strict
  | comfortable
deriving DecidableEq

/-- The static configuration of a `SchemaFactory` (classifier mapping,
`cls.mro()` table, restriction rules, child-factory and decision settings). -/
structure FactoryConfig where
  classMro : String → List String
  mapping : List (String × String) := default_column_to_schema
  restrictions : List (String × (Column → JDict → JDict)) := default_restriction_dict
  splitter : String := "."
  bidirectional : Bool := false
  referenceFiles : Bool := false
  decision : DecisionKind := .strict

/-- `ChildFactory.child_walker` (source lines 288-295).  Note the source
derives the child's excludes from `walker.includes` (line 290), not from
`walker.excludes`; the appended `prop.back_populates` / `prop.backref`
entries that are Python `None` can never match a string key and are dropped.
`walker.clone` runs `BaseModelWalker.__init__`, so the conflict check fires
here too, and `history or []` aliases the shared list exactly when the
passed history is non-empty. -/
def child_walker (cfg : FactoryConfig) (g : Graph) (r : RelProp) (w : WalkerS)
    (history : List RelProp) : Except PyErr WalkerS := do
  let excludes0 := (get_children_list r.key w.includes cfg.splitter (some [])).getD []
  let excludes := if cfg.bidirectional then excludes0
    else excludes0 ++ (r.backPopulates.toList ++ r.backref.toList)
  let includes := get_children_list r.key w.includes cfg.splitter none
  let target ← find_model g r.target
  (base_walker_check includes (some excludes)).map fun _ =>
    { model := target, includes := includes, excludes := some excludes,
      hist := if history.isEmpty then .fixed [] else .shared }

/-- `ChildFactory.child_overrides` (source lines 283-286): a fresh override
collection scoped to the relationship's dotted namespace. -/
def child_overrides (cfg : FactoryConfig) (r : RelProp) (ov : Overrides) : Overrides :=
  mk_overrides (get_children_dict r.key ov.params cfg.splitter)

/-- The shape wrapper of `ChildFactory.child_schema` (source lines 299-302). -/
def child_schema_value (direction : Direction) (subschema : JDict) : JDict :=
  if direction = .onetomany then [("type", .s "array"), ("items", .obj subschema)]
  else [("type", .s "object"), ("properties", .obj subschema)]

/-- An `(action, prop, opts)` triple yielded by a relation decision. -/
inductive DAction where
  | relationship
  | foreignkey
  | immediate (v : JVal)

abbrev Triple := DAction × MProp × JDict

/-- `RelationDesicion.desicion` (source lines 309-316): a property with a
mapper is a relationship, one with columns a foreign-key column. -/
def relation_desicion (p : MProp) : Except PyErr (List Triple) :=
  match p with
  | .relp _ => .ok [(.relationship, p, [])]
  | .colp _ _ => .ok [(.foreignkey, p, [])]

/-- Python `set(...) != set(...)` on column collections, by element. -/
def py_set_eq (a b : List String) : Bool :=
  a.all b.contains && b.all a.contains

/-- The `for c in prop.local_columns: yield FOREIGNKEY,
walker.mapper._props[c.name], {"relation": prop.key}` loop of
`ComfortableDesicion.desicion`. -/
def flatten_fk (m : Model) (relKey : String) : List String → Except PyErr (List Triple)
  | [] => .ok []
  | cn :: rest => do
    let pr ← props_getitem m cn
    let ts ← flatten_fk m relKey rest
    pure ((.foreignkey, pr, [("relation", JVal.s relKey)]) :: ts)

/-- `ComfortableDesicion.desicion` (source lines 319-339).  A many-to-one
relationship is flattened into its local columns (tagged with
`relation: key`) at top level, and below top level only when its local
columns differ from `walker.history[0].remote_side` — the remote side of the
FIRST relationship in the traversal history; many-to-many degrades to an
inline string-array literal; anything else is a relationship. -/
def comfortable_desicion (w : WalkerS) (cur : List RelProp) (p : MProp)
    (toplevel : Bool) : Except PyErr (List Triple) :=
  match p with
  | .relp r =>
    if r.direction = .manytoone then
      if toplevel then
        flatten_fk w.model r.key r.localColumns
      else
        match hist_of w cur with
        | [] => .error .indexError
        | rp :: _ =>
          if !(py_set_eq r.localColumns rp.remoteSide) then
            flatten_fk w.model r.key r.localColumns
          else .ok []
    else if r.direction = .manytomany then
      .ok [(.immediate (.obj [("type", .s "array"), ("items", .obj [("type", .s "string")])]), p, [])]
    else .ok [(.relationship, p, [])]
  | .colp _ _ => .ok [(.foreignkey, p, [])]

/-- Dispatch on the configured decision policy. -/
def run_desicion (cfg : FactoryConfig) (w : WalkerS) (cur : List RelProp)
    (p : MProp) (toplevel : Bool) : Except PyErr (List Triple) :=
  match cfg.decision with
  | .strict => relation_desicion p
  | .comfortable => comfortable_desicion w cur p toplevel

/-- `SchemaFactory._detect_required` (source lines 481-487): the keys of the
walked properties at least one of whose columns is non-nullable with no
default. -/
def detect_required (w : WalkerS) (cur : List RelProp) : Except PyErr (List String) := do
  let ps ← iterate_props w.model
  pure (((ps.filter (walk_accepts w cur)).filter
    (fun p => (prop_columns p).any (fun c => !c.nullable && !c.hasDefault))).map prop_key)

/-- The per-column body of the foreign-key branch of
`SchemaFactory._build_properties` (source lines 450-475): classify the type,
add array item details, apply restriction rules, attach the column doc,
apply a matching override, and merge decision-supplied extra options. -/
def build_column (cfg : FactoryConfig) (ov : Overrides) (opts : JDict) (c : Column) :
    Except PyErr (JDict × Overrides) := do
  if c.typeIsVisitableType then .error .notImplemented
  else do
    let (itype, tstr) ← classifier_getitem cfg.classMro cfg.mapping c.ctype
    let sub : JDict := dict_setitem [] "type" (.s tstr)
    let sub ←
      if tstr = "array" then
        match c.ctype.itemType with
        | some it => do
          let (_, itemStr) ← classifier_getitem cfg.classMro cfg.mapping it
          let sub := dict_setitem sub "items" (.obj [("type", .s itemStr)])
          if itemStr = "string" then
            match it.length with
            | none => .error (.typeError "NoneType greater-than int")
            | some l =>
              if l > 0 then
                pure (dict_setitem sub "items"
                  (.obj [("type", .s itemStr), ("maxLength", .s (toString l))]))
              else pure sub
          else pure sub
        | none => pure sub
      else pure sub
    let sub := add_restriction_if_found cfg.restrictions c (cfg.classMro itype) sub
    let sub := match c.doc with
      | some d => if d = "" then sub else dict_setitem sub "description" (.s (clean_doc d))
      | none => sub
    let (ov, sub) ←
      if overrides_contains ov c.name then overrides_apply ov sub
      else pure (ov, sub)
    let sub := if opts.isEmpty then sub else opts.foldl (fun s kv => dict_setitem s kv.1 kv.2) sub
    pure (sub, ov)

/-- `SchemaFactory._add_property_with_reference` (source lines 397-427).
In file-reference mode emit `NAME.json#` references; in inline-definitions
mode register the related model's schema under `definitions[className]`,
emit a `#/definitions/className` reference (array-wrapped for many-valued
relations after converting `items` back to `properties`), and attach a
`required` list computed by `_detect_required(walker)` — the walker of the
CURRENT level, not the child walker (the source passes `walker` at line
445). -/
def add_property_with_reference (cfg : FactoryConfig) (g : Graph) (w : WalkerS)
    (cur : List RelProp) (defs : Option JDict) (current_schema : JDict)
    (r : RelProp) (val : JDict) : Except PyErr (JDict × Option JDict) := do
  let target ← find_model g r.target
  if cfg.referenceFiles then
    let name := target.tableName
    let vtype ← dict_getitem val "type"
    let cur1 :=
      if r.direction = .manytoone || r.direction = .manytomany || jval_is vtype "array" then
        dict_setitem current_schema r.key
          (.obj [("type", .s "array"), ("items", .obj [("$ref", .s (name ++ ".json#"))])])
      else
        dict_setitem current_schema r.key (.obj [("$ref", .s (name ++ ".json#"))])
    let _ ← detect_required w cur
    pure (cur1, defs)
  else
    let defs0 := defs.getD []
    let clsname := target.name
    let vtype ← dict_getitem val "type"
    if jval_is vtype "object" then
      let cur1 := dict_setitem current_schema r.key
        (.obj [("$ref", .s ("#/definitions/" ++ clsname))])
      let req ← detect_required w cur
      let val1 := dict_setitem val "required" (.arr (req.map JVal.s))
      pure (cur1, some (dict_setitem defs0 clsname (.obj val1)))
    else
      let cur1 := dict_setitem current_schema r.key
        (.obj [("type", .s "array"),
               ("items", .obj [("$ref", .s ("#/definitions/" ++ clsname))])])
      let val1 := dict_setitem val "type" (.s "object")
      let (items, val2) ← dict_pop val1 "items"
      let val3 := dict_setitem val2 "properties" items
      let req ← detect_required w cur
      let val4 := dict_setitem val3 "required" (.arr (req.map JVal.s))
      pure (cur1, some (dict_setitem defs0 clsname (.obj val4)))

/-- The running state of `_build_properties`: the properties dict built so
far, the level's override collection, the root document's `definitions`
dict (None while the key is absent) and the shared traversal history. -/
abbrev BuildSt := JDict × Overrides × Option JDict × List RelProp

/-- The type of recursive re-entry into `_build_properties` one fuel step
down (walker, overrides, depth, definitions, history, toplevel). -/
abbrev BuildRecur :=
  WalkerS → Overrides → Option Int → Option JDict → List RelProp → Bool →
    Except BuildErr BuildSt

/-- `depth is not None and depth <= 0`. -/
def depth_exhausted (depth : Option Int) : Bool :=
  match depth with
  | none => false
  | some d => d ≤ 0

/-- `depth and depth - 1` (Python truthiness: `None` and `0` pass through). -/
def py_depth_child (depth : Option Int) : Option Int :=
  match depth with
  | none => none
  | some d => if d = 0 then some 0 else some (d - 1)

/-- The `for column in prop.columns` loop of the foreign-key branch of
`_build_properties`: build each field schema, store it under the column's
name, and remember the last-built one (Python leaves it in `sub`). -/
def columns_loop (cfg : FactoryConfig) (opts : JDict) :
    List Column → JDict → Overrides → Option JDict →
      Except PyErr (JDict × Overrides × Option JDict)
  | [], acc, ov, lastSub => .ok (acc, ov, lastSub)
  | c :: rest, acc, ov, _ => do
    let (sub, ov1) ← build_column cfg ov opts c
    columns_loop cfg opts rest (dict_setitem acc c.name (.obj sub)) ov1 (some sub)

/-- The `for action, prop, opts in ...desicion(...)` loop body of
`_build_properties` (source lines 438-478), threading the level's state
through each triple.  A relationship triple appends its property to the
shared history, clones a child walker, recurses via `recur`, and attaches
the child schema; a foreign-key triple builds one field schema per column
and stores the last one also under the property's own key (`NameError` when
the property has no columns, as in Python where `sub` stays unbound). -/
def triples_loop (cfg : FactoryConfig) (g : Graph) (recur : BuildRecur)
    (w : WalkerS) (depth : Option Int) :
    List Triple → JDict → Overrides → Option JDict → List RelProp →
      Except BuildErr BuildSt
  | [], acc, ov, defs, hist => .ok (acc, ov, defs, hist)
  | (action, p, opts) :: rest, acc, ov, defs, hist =>
    match action with
    | .relationship =>
      match p with
      | .relp r => do
        let hist1 := hist ++ [r]
        let subwalker ← (child_walker cfg g r w hist1).mapError BuildErr.py
        let subov := child_overrides cfg r ov
        let (subprops, _, defs1, hist2) ←
          recur subwalker subov (py_depth_child depth) defs hist1 false
        let val := child_schema_value r.direction subprops
        let (acc1, defs2) ←
          (add_property_with_reference cfg g w hist2 defs1 acc r val).mapError BuildErr.py
        triples_loop cfg g recur w depth rest acc1 ov defs2 hist2
      | .colp _ _ => .error (.py (.attributeError "mapper"))
    | .foreignkey =>
      match p with
      | .colp key cols => do
        let (acc1, ov1, lastSub) ←
          (columns_loop cfg opts cols acc ov none).mapError BuildErr.py
        match lastSub with
        | some sub =>
          triples_loop cfg g recur w depth rest (dict_setitem acc1 key (.obj sub)) ov1 defs hist
        | none => .error (.py (.nameError "sub"))
      | .relp _ => .error (.py (.attributeError "columns"))
    | .immediate v =>
      triples_loop cfg g recur w depth rest (dict_setitem acc (prop_key p) v) ov defs hist

/-- The `for prop in walker.walk()` loop of `_build_properties`: the walk
generator's filter is evaluated against the shared history as it stands
when the generator advances to each property. -/
def props_loop (cfg : FactoryConfig) (g : Graph) (recur : BuildRecur)
    (w : WalkerS) (toplevel : Bool) (depth : Option Int) :
    List MProp → JDict → Overrides → Option JDict → List RelProp →
      Except BuildErr BuildSt
  | [], acc, ov, defs, hist => .ok (acc, ov, defs, hist)
  | p :: rest, acc, ov, defs, hist =>
    if walk_accepts w hist p then
      match run_desicion cfg w hist p toplevel with
      | .error e => .error (.py e)
      | .ok triples =>
        match triples_loop cfg g recur w depth triples acc ov defs hist with
        | .error e => .error e
        | .ok (acc1, ov1, defs1, hist1) =>
          props_loop cfg g recur w toplevel depth rest acc1 ov1 defs1 hist1
    else props_loop cfg g recur w toplevel depth rest acc ov defs hist

/-- `SchemaFactory._build_properties` (source lines 429-479), fuel-indexed:
return an empty mapping when a depth budget is exhausted, else run the walk
loop; recursive descents run one fuel step down. -/
def build_properties (cfg : FactoryConfig) (g : Graph) : Nat → BuildRecur
  | 0 => fun _ _ _ _ _ _ => .error .outOfFuel
  | fuel + 1 => fun w ov depth defs hist toplevel =>
    if depth_exhausted depth then .ok ([], ov, defs, hist)
    else
      match iterate_props w.model with
      | .error e => .error (.py e)
      | .ok ps => props_loop cfg g (build_properties cfg g fuel) w toplevel depth ps [] ov defs hist

/-- The named result of a schema generation call. -/
structure JSONSchemaR where
  name : String
  schema : JDict

/-- `SchemaFactory.__call__` (source lines 358-380), also returning the final
contents of the shared traversal-history list: construct the root walker
(conflict check), build `properties`, fail on unconsumed override keys,
attach `description` and `required`, and assemble the document in dict
insertion order (`definitions` is created during the build, before the
`properties` key is assigned). -/
def schema_call_hist (cfg : FactoryConfig) (g : Graph) (fuel : Nat) (modelName : String)
    (includes excludes : Option (List String)) (overridesParams : List (String × OVal))
    (depth : Option Int) : Except BuildErr (JSONSchemaR × List RelProp) := do
  let m ← (find_model g modelName).mapError BuildErr.py
  let walker ← (mk_root_walker m includes excludes).mapError BuildErr.py
  let ov := mk_overrides overridesParams
  let (props, ov1, defs, hist) ← build_properties cfg g fuel walker ov depth none [] true
  if !ov1.notUsedKeys.isEmpty then
    .error (.py (.invalidStatus (.overridesUnused ov1.notUsedKeys)))
  else do
    let base : JDict :=
      [("$schema", .s "http://json-schema.org/draft-04/schema#"),
       ("title", .s m.name), ("type", .s "object")]
    let withDefs := match defs with
      | some d => base ++ [("definitions", .obj d)]
      | none => base
    let schema0 := withDefs ++ [("properties", .obj props)]
    let schema1 := match m.doc with
      | some d => if d = "" then schema0 else dict_setitem schema0 "description" (.s (clean_doc d))
      | none => schema0
    let req ← (detect_required walker hist).mapError BuildErr.py
    let schema2 := if req.isEmpty then schema1 else dict_setitem schema1 "required" (.arr (req.map JVal.s))
    pure ({ name := m.tableName, schema := schema2 }, hist)

/-- `SchemaFactory.__call__`: the returned `JSONSchema` alone. -/
def schema_call (cfg : FactoryConfig) (g : Graph) (fuel : Nat) (modelName : String)
    (includes excludes : Option (List String)) (overridesParams : List (String × OVal))
    (depth : Option Int) : Except BuildErr JSONSchemaR :=
  (schema_call_hist cfg g fuel modelName includes excludes overridesParams depth).map (·.1)

/-! Infrastructure for reasoning about the shared traversal history. -/

/-- The relationship payload of a property, when it is one. -/
def rel_of : MProp → Option RelProp
  | .relp r => some r
  | .colp _ _ => none

/-- Every relationship property reachable anywhere in the graph's metadata. -/
def rel_universe (g : Graph) : List RelProp :=
  g.models.flatMap (fun m =>
    m.relationships.filterMap rel_of ++ (m.props.map (·.2)).filterMap rel_of)

/-- How many relationship properties of the graph are not yet in the history:
the termination measure for `_build_properties`. -/
def fresh_count (g : Graph) (hist : List RelProp) : Nat :=
  ((rel_universe g).filter (fun r => !hist.contains r)).length

/-- The shared history list only ever grows, and below the top level each
appended relationship property is fresh: `hist'` extends `hist` by a
duplicate-free block disjoint from `hist`. -/
def HExt (hist hist' : List RelProp) : Prop :=
  ∃ ext, hist' = hist ++ ext ∧ ext.Nodup ∧ ∀ x ∈ ext, x ∉ hist

/-! Concrete fixtures used by the claim theorems and witnesses. -/

/-- `cls.mro()` for the example classes (the class itself first). -/
def ex_mro : String → List String
  | "Integer" => ["Integer", "TypeEngine", "Visitable", "object"]
  | "String" => ["String", "Concatenable", "TypeEngine", "Visitable", "object"]
  | c => [c, "object"]

def int_type : ColType := .mk "Integer" false none none [] none

def str_type (l : Nat) : ColType := .mk "String" false none (some l) [] none

/-- A factory in its default configuration over the example class table. -/
def ex_cfg : FactoryConfig := { classMro := ex_mro }

/-- C5: a model with one nullable string column of length 50. -/
def user_model : Model :=
  { name := "User", tableName := "user",
    columns := [{ name := "name", ctype := str_type 50 }],
    props := [("name", .colp "name" [{ name := "name", ctype := str_type 50 }])] }

def g_user : Graph := ⟨[user_model]⟩

/-- C5: the caller's override fragment for the field `name`. -/
def ov_frag : JVal := .obj [("type", .s "string"), ("maxLength", .n 10)]

/-- C6: a model with a single non-nullable integer column `id`. -/
def u2_model : Model :=
  { name := "U2", tableName := "u2",
    columns := [{ name := "id", ctype := int_type, nullable := false }],
    props := [("id", .colp "id" [{ name := "id", ctype := int_type, nullable := false }])] }

def g_u2 : Graph := ⟨[u2_model]⟩

/-- C10: a model with two scalar integer columns `a` and `b`. -/
def twocol_model : Model :=
  { name := "T", tableName := "t",
    columns := [{ name := "a", ctype := int_type }, { name := "b", ctype := int_type }],
    props := [("a", .colp "a" [{ name := "a", ctype := int_type }]),
              ("b", .colp "b" [{ name := "b", ctype := int_type }])] }

def g_twocol : Graph := ⟨[twocol_model]⟩

/-- C8: the one-to-many relationship `items` from `A` to `Item`. -/
def rel_items : RelProp :=
  { owner := "A", key := "items", target := "Item", direction := .onetomany }

def aid_col : Column := { name := "aid", ctype := int_type, nullable := false }

def iid_col : Column := { name := "iid", ctype := int_type, nullable := false }

def a_model : Model :=
  { name := "A", tableName := "a",
    columns := [aid_col], props := [("aid", .colp "aid" [aid_col])],
    relationships := [.relp rel_items] }

def item_model : Model :=
  { name := "Item", tableName := "item",
    columns := [iid_col], props := [("iid", .colp "iid" [iid_col])] }

def g_items : Graph := ⟨[a_model, item_model]⟩

/-- C8: the root walker over `A`. -/
def a_walker : WalkerS :=
  { model := a_model, includes := none, excludes := none, hist := .fixed [] }

/-- C8: the child walker the build clones when descending `items`. -/
def item_child_walker : WalkerS :=
  { model := item_model, includes := none, excludes := some [], hist := .shared }

/-- C2: `A2` has one-to-many `bs` to `B2` (backref `a`) and one-to-many `cs`
to `C2`; `B2` has an extra many-to-one `owner` back to `A2` that is not the
backref of `bs`. -/
def rel_bs : RelProp :=
  { owner := "A2", key := "bs", target := "B2", direction := .onetomany, backref := some "a" }

def rel_owner : RelProp :=
  { owner := "B2", key := "owner", target := "A2", direction := .manytoone }

def rel_cs : RelProp :=
  { owner := "A2", key := "cs", target := "C2", direction := .onetomany }

def a2_model : Model :=
  { name := "A2", tableName := "a2",
    columns := [{ name := "a_id", ctype := int_type }],
    props := [("a_id", .colp "a_id" [{ name := "a_id", ctype := int_type }])],
    relationships := [.relp rel_bs, .relp rel_cs] }

def b2_model : Model :=
  { name := "B2", tableName := "b2",
    columns := [{ name := "b_id", ctype := int_type }],
    props := [("b_id", .colp "b_id" [{ name := "b_id", ctype := int_type }])],
    relationships := [.relp rel_owner] }

def c2_model : Model :=
  { name := "C2", tableName := "c2",
    columns := [{ name := "c_id", ctype := int_type }],
    props := [("c_id", .colp "c_id" [{ name := "c_id", ctype := int_type }])] }

def g_cycle : Graph := ⟨[a2_model, b2_model, c2_model]⟩

/-- C1: one table column `ab` whose property maps two columns, the local
non-nullable default-less `ab` and a nullable remote expression column. -/
def ab_local_col : Column := { name := "ab", ctype := int_type, nullable := false }

def ab_remote_col : Column := { name := "remote_x", ctype := int_type, nullable := true }

def m1_model : Model :=
  { name := "M1", tableName := "m1",
    columns := [{ name := "ab", ctype := int_type, nullable := false }],
    props := [("ab", .colp "ab" [ab_local_col, ab_remote_col])] }

def m1_walker : WalkerS :=
  { model := m1_model, includes := none, excludes := none, hist := .fixed [] }

/-- C3: traversal went root through `rel_top` into `B3`, then through
`rel_mid` into `M3`; `M3.parent` is many-to-one with local columns equal to
`rel_mid`'s remote side but not `rel_top`'s. -/
def rel_top : RelProp :=
  { owner := "R", key := "k0", target := "B3", direction := .onetomany, remoteSide := ["x"] }

def rel_mid : RelProp :=
  { owner := "B3", key := "k1", target := "M3", direction := .onetomany, remoteSide := ["fk"] }

def fk_col : Column := { name := "fk", ctype := int_type }

def m3_model : Model :=
  { name := "M3", tableName := "m3",
    columns := [fk_col], props := [("fk", .colp "fk" [fk_col])] }

def rel_parent : RelProp :=
  { owner := "M3", key := "parent", target := "B3", direction := .manytoone,
    localColumns := ["fk"], remoteSide := [] }

def m3_walker : WalkerS :=
  { model := m3_model, includes := none, excludes := none, hist := .fixed [rel_top, rel_mid] }

/-- C4: a parent relationship with a backref, and parent walkers carrying a
dotted exclude (resp. a dotted include) for the child namespace. -/
def rel_items4 : RelProp :=
  { owner := "P", key := "items", target := "Item", direction := .onetomany,
    backref := some "parent" }

def p_walker_excl : WalkerS :=
  { model := a_model, includes := none, excludes := some ["items.secret"], hist := .fixed [] }

def p_walker_incl : WalkerS :=
  { model := a_model, includes := some ["items.foo"], excludes := none, hist := .fixed [] }

/-- C9: a classifier mapping containing the decorator class `D` itself. -/
def map9 : List (String × String) := [("D", "string"), ("Integer", "integer")]

def inner_native : ColType := .mk "Integer" false none none [] none

/-- C9: a decorator of class `D` wrapping a plain `Integer`. -/
def inner_dec : ColType := .mk "D" true (some inner_native) none [] none

/-- C9: a decorator of class `D` wrapping another decorator. -/
def outer_dec : ColType := .mk "D" true (some inner_dec) none [] none

/-- 0 when the property is already in the history, else 1: the one-shot
budget a property has for being appended by history-checking traversal. -/
def hflag (x : RelProp) (hist : List RelProp) : Nat :=
  if x ∈ hist then 0 else 1

/-- A recursive re-entry respects the history discipline: called with a
history-sharing walker, on success it only extends the shared history by
fresh, pairwise-distinct relationship properties. -/
def RecurHExt (recur : BuildRecur) : Prop :=
  ∀ w ov depth defs hist toplevel st, w.hist = HistRef.shared →
    recur w ov depth defs hist toplevel = .ok st → HExt hist st.2.2.2

/-- A recursive re-entry does not exhaust fuel when called with a
history-sharing walker over a model of the graph and enough fuel budget
relative to the fresh relationship properties remaining. -/
def RecurNF (g : Graph) (recur : BuildRecur) (fuelBound : Nat) : Prop :=
  ∀ w ov depth defs hist toplevel, w.hist = HistRef.shared →
    w.model ∈ g.models → fresh_count g hist < fuelBound →
    recur w ov depth defs hist toplevel ≠ .error .outOfFuel

/-! Helper lemmas. -/

theorem alist_get_map_set_self (d : JDict) (k : String) (v : JVal)
    (h : d.any (fun kv => kv.1 == k) = true) :
    alist_get (d.map (fun kv => if kv.1 == k then (k, v) else kv)) k = some v := by
  induction d with
  | nil => simp at h
  | cons kv rest ih =>
    by_cases hk : (kv.1 == k) = true
    · simp [alist_get, hk]
    · have h2 : rest.any (fun kv => kv.1 == k) = true := by
        simp only [List.any_cons, Bool.or_eq_true] at h
        rcases h with h | h
        · exact absurd h hk
        · exact h
      simp only [List.map_cons, hk, if_neg, Bool.false_eq_true, not_false_eq_true, alist_get]
      exact ih h2

theorem alist_get_map_set_other (d : JDict) (k k2 : String) (v : JVal) (hne : k2 ≠ k) :
    alist_get (d.map (fun kv => if kv.1 == k then (k, v) else kv)) k2 = alist_get d k2 := by
  induction d with
  | nil => simp [alist_get]
  | cons kv rest ih =>
    by_cases hk : (kv.1 == k) = true
    · have hkk : kv.1 = k := by simpa using hk
      simp only [List.map_cons, hk, if_pos, alist_get]
      rw [if_neg (by simp [Ne.symm hne]), if_neg (by simp [hkk, Ne.symm hne])]
      exact ih
    · simp only [List.map_cons, hk, if_neg, Bool.false_eq_true, not_false_eq_true, alist_get]
      by_cases hk2 : (kv.1 == k2) = true
      · simp [hk2]
      · rw [if_neg (by simpa using hk2), if_neg (by simpa using hk2)]
        exact ih

theorem alist_get_append_single (d : JDict) (k k2 : String) (v : JVal) :
    alist_get (d ++ [(k, v)]) k2 =
      (alist_get d k2).or (if k == k2 then some v else none) := by
  induction d with
  | nil => simp [alist_get]
  | cons kv rest ih =>
    by_cases hk2 : (kv.1 == k2) = true
    · simp [alist_get, hk2]
    · simp only [List.cons_append, alist_get]
      rw [if_neg (by simpa using hk2), if_neg (by simpa using hk2)]
      exact ih

/-- The dict-assignment/lookup law: after `d[k] = v`, looking up `k` yields
`v` and any other key is unchanged. -/
theorem alist_get_setitem (d : JDict) (k k2 : String) (v : JVal) :
    alist_get (dict_setitem d k v) k2 = if k2 = k then some v else alist_get d k2 := by
  unfold dict_setitem
  by_cases hany : (d.any (fun kv => kv.1 == k)) = true
  · rw [if_pos hany]
    by_cases hk2 : k2 = k
    · subst hk2
      rw [if_pos rfl]
      exact alist_get_map_set_self d k2 v hany
    · rw [if_neg hk2]
      exact alist_get_map_set_other d k k2 v hk2
  · rw [if_neg hany, alist_get_append_single]
    by_cases hk2 : k2 = k
    · subst hk2
      have hnone : alist_get d k2 = none := by
        induction d with
        | nil => rfl
        | cons kv rest ih =>
          simp only [List.any_cons, Bool.or_eq_true, not_or] at hany
          simp only [alist_get]
          rw [if_neg (by simpa using hany.1)]
          exact ih (by simpa using hany.2)
      simp [hnone]
    · rw [if_neg hk2, if_neg (by simpa using (Ne.symm hk2))]
      simp

theorem set_remove_spec (nu nu2 : List String) (k : String)
    (h : set_remove nu k = .ok nu2) : nu2 = nu.erase k ∧ k ∈ nu := by
  unfold set_remove at h
  by_cases hk : nu.contains k = true
  · rw [if_pos hk] at h
    exact ⟨(Except.ok.injEq _ _).mp h.symm, List.elem_iff.mp hk⟩
  · rw [if_neg hk] at h
    cases h

theorem overrides_go_spec (ps : List (String × OVal)) :
    ∀ (nu : List String) (d : JDict),
    (ps.map (·.1)).Nodup → nu.Nodup →
    (∀ k ∈ ps.map (·.1), k ∈ nu) →
    (∀ kv ∈ ps, ∃ j, kv.2 = OVal.v j) →
    ∃ nu2 d2, overrides_apply_go ps nu d = .ok (nu2, d2) ∧
      (∀ k j, (k, OVal.v j) ∈ ps → alist_get d2 k = some j) ∧
      (∀ k ∈ ps.map (·.1), k ∉ nu2) ∧
      (∀ k2, k2 ∉ ps.map (·.1) → alist_get d2 k2 = alist_get d k2) ∧
      (∀ x ∈ nu2, x ∈ nu) ∧ nu2.Nodup := by
  induction ps with
  | nil =>
    intro nu d _ hnu _ _
    exact ⟨nu, d, rfl, by simp, by simp, fun _ _ => rfl, fun x hx => hx, hnu⟩
  | cons kv rest ih =>
    intro nu d hkeys hnu hmem hvals
    obtain ⟨j, hj⟩ := hvals kv (List.mem_cons_self kv rest)
    have hkmem : kv.1 ∈ nu := hmem kv.1 (by simp)
    have hknotrest : kv.1 ∉ rest.map (·.1) := by
      simp only [List.map_cons, List.nodup_cons] at hkeys
      exact hkeys.1
    have hrestkeys : (rest.map (·.1)).Nodup := by
      simp only [List.map_cons, List.nodup_cons] at hkeys
      exact hkeys.2
    have hnu1 : (nu.erase kv.1).Nodup := hnu.erase kv.1
    have hmem1 : ∀ k ∈ rest.map (·.1), k ∈ nu.erase kv.1 := by
      intro k hk
      have hne : k ≠ kv.1 := fun he => hknotrest (he ▸ hk)
      exact (List.mem_erase_of_ne hne).mpr (hmem k (by simp [hk]))
    obtain ⟨nu2, d2, hgo, hw, hc, hpres, hsub, hnd⟩ :=
      ih (nu.erase kv.1) (dict_setitem d kv.1 j) hrestkeys hnu1 hmem1
        (fun kv2 h2 => hvals kv2 (List.mem_cons_of_mem kv h2))
    refine ⟨nu2, d2, ?_, ?_, ?_, ?_, fun x hx => (nu.erase_subset kv.1) (hsub x hx), hnd⟩
    · show overrides_apply_go (kv :: rest) nu d = .ok (nu2, d2)
      unfold overrides_apply_go
      rw [hj]
      simp only [bind, Except.bind, pure, Except.pure]
      unfold set_remove
      rw [if_pos (List.elem_iff.mpr hkmem)]
      simp only [bind, Except.bind]
      exact hgo
    · intro k j2 hkj
      rcases List.mem_cons.mp hkj with h | h
      · have hk : k = kv.1 := congrArg Prod.fst h
        have hjv : OVal.v j2 = OVal.v j := by
          rw [show OVal.v j2 = kv.2 from congrArg Prod.snd h, hj]
        have hj2 : j2 = j := by injection hjv
        rw [hk, hj2, hpres kv.1 hknotrest, alist_get_setitem, if_pos rfl]
      · exact hw k j2 h
    · intro k hk hkin
      rcases List.mem_map.mp hk with ⟨kv2, hkv2, hkey⟩
      rcases List.mem_cons.mp hkv2 with h | h
      · subst hkey
        rw [h] at hkin
        exact (hnu.not_mem_erase) (hsub _ hkin)
      · exact hc k (hkey ▸ List.mem_map_of_mem (·.1) h) hkin
    · intro k2 hk2
      have hk2ne : k2 ≠ kv.1 := by
        intro he
        exact hk2 (he ▸ (by simp))
      have hk2rest : k2 ∉ rest.map (·.1) := by
        intro he
        exact hk2 (by simp [he])
      rw [hpres k2 hk2rest, alist_get_setitem, if_neg hk2ne]

theorem props_getitem_error (m : Model) (k : String) (e : PyErr)
    (h : props_getitem m k = .error e) : ∃ k2, e = .keyError k2 := by
  unfold props_getitem at h
  cases halist : alist_get m.props k with
  | some p => rw [halist] at h; cases h
  | none =>
    rw [halist] at h
    cases h
    exact ⟨k, rfl⟩

theorem iterate_cols_error (m : Model) (cs : List Column) (e : PyErr)
    (h : iterate_cols m cs = .error e) : ∃ k, e = .keyError k := by
  induction cs with
  | nil => cases h
  | cons c rest ih =>
    unfold iterate_cols at h
    cases hp : props_getitem m c.name with
    | error e2 =>
      rw [hp] at h
      simp only [bind, Except.bind] at h
      cases h
      exact props_getitem_error m c.name e hp
    | ok p =>
      rw [hp] at h
      simp only [bind, Except.bind] at h
      cases hr : iterate_cols m rest with
      | error e2 =>
        rw [hr] at h
        cases h
        exact ih hr
      | ok ps =>
        rw [hr] at h
        simp only [pure, Except.pure] at h
        cases h

theorem iterate_props_error (m : Model) (e : PyErr)
    (h : iterate_props m = .error e) : ∃ k, e = .keyError k := by
  unfold iterate_props at h
  cases hc : iterate_cols m m.columns with
  | error e2 =>
    rw [hc] at h
    simp only [bind, Except.bind] at h
    cases h
    exact iterate_cols_error m m.columns e hc
  | ok ps =>
    rw [hc] at h
    simp only [bind, Except.bind, pure, Except.pure] at h
    cases h

theorem detect_required_error (w : WalkerS) (cur : List RelProp) (e : PyErr)
    (h : detect_required w cur = .error e) : ∃ k, e = .keyError k := by
  unfold detect_required at h
  cases hi : iterate_props w.model with
  | error e2 =>
    rw [hi] at h
    simp only [bind, Except.bind] at h
    cases h
    exact iterate_props_error w.model e hi
  | ok ps =>
    rw [hi] at h
    simp only [bind, Except.bind, pure, Except.pure] at h
    cases h

theorem flatten_fk_spec (m : Model) (relKey : String) (cns : List String)
    (h : ∀ cn ∈ cns, ∃ pr, props_getitem m cn = .ok pr) :
    ∃ ts, flatten_fk m relKey cns = .ok ts ∧ ts.length = cns.length ∧
      ∀ t ∈ ts, t.1 = DAction.foreignkey ∧ t.2.2 = [("relation", JVal.s relKey)] := by
  induction cns with
  | nil => exact ⟨[], rfl, rfl, by simp⟩
  | cons cn rest ih =>
    obtain ⟨pr, hpr⟩ := h cn (by simp)
    obtain ⟨ts, hts, hlen, hall⟩ := ih (fun c hc => h c (by simp [hc]))
    refine ⟨(.foreignkey, pr, [("relation", JVal.s relKey)]) :: ts, ?_, by simp [hlen], ?_⟩
    · unfold flatten_fk
      rw [hpr, hts]
      rfl
    · intro t ht
      rcases List.mem_cons.mp ht with h2 | h2
      · subst h2
        exact ⟨rfl, rfl⟩
      · exact hall t h2

/-! Claim theorems. -/

/-- Claim C1 (counterexample): the claim says a property's key is in
`required` iff EVERY underlying column is non-nullable and default-less.
The walked property `ab` of `m1_model` has a nullable underlying column,
yet `_detect_required` lists it, because the source tests `any(...)`. -/
theorem C1_counterexample :
    detect_required m1_walker [] = .ok ["ab"] ∧
    alist_get m1_model.props "ab" = some (.colp "ab" [ab_local_col, ab_remote_col]) ∧
    ab_remote_col.nullable = true ∧
    ((prop_columns (.colp "ab" [ab_local_col, ab_remote_col])).all
      (fun c => !c.nullable && !c.hasDefault)) = false :=
  ⟨rfl, rfl, rfl, rfl⟩

/-- Claim C1 (amended): a property yielded by the walker appears in the
`required` list computed by `_detect_required` iff AT LEAST ONE of its
underlying columns is non-nullable and has no default. -/
theorem C1_required_iff_some_column (w : WalkerS) (cur : List RelProp)
    (ps : List MProp) (r : List String)
    (hps : iterate_props w.model = .ok ps)
    (hr : detect_required w cur = .ok r) :
    ∀ k, k ∈ r ↔ ∃ p ∈ ps, walk_accepts w cur p = true ∧ prop_key p = k ∧
      (prop_columns p).any (fun c => !c.nullable && !c.hasDefault) = true := by
  unfold detect_required at hr
  rw [hps] at hr
  simp only [bind, Except.bind, pure, Except.pure, Except.ok.injEq] at hr
  subst hr
  intro k
  simp only [List.mem_map, List.mem_filter]
  constructor
  · rintro ⟨p, ⟨⟨hp, hacc⟩, hany⟩, hkey⟩
    exact ⟨p, hp, hacc, hkey, hany⟩
  · rintro ⟨p, hp, hacc, hkey, hany⟩
    exact ⟨p, ⟨⟨hp, hacc⟩, hany⟩, hkey⟩

/-- Claim C1 (witness): the amended characterization applied to the concrete
two-column fixture. -/
theorem C1_required_iff_some_column_witness :
    "ab" ∈ ["ab"] ↔ ∃ p ∈ [MProp.colp "ab" [ab_local_col, ab_remote_col]],
      walk_accepts m1_walker [] p = true ∧ prop_key p = "ab" ∧
      (prop_columns p).any (fun c => !c.nullable && !c.hasDefault) = true :=
  C1_required_iff_some_column m1_walker [] _ _ rfl rfl "ab"

/-- Claim C2 (counterexample): on `g_cycle` (a cyclic graph) the single call
completes, but the relationship property `cs` of the root model is appended
to the traversal history — that is, descended into — twice: once from inside
the `bs`-descent (whose child walker shares and checks the history) and once
more by the top-level loop, whose root walker checks its own, permanently
empty, history list instead of the shared one. -/
theorem C2_counterexample :
    (schema_call_hist ex_cfg g_cycle 20 "A2" none none [] none).map
      (fun x => x.2.count rel_cs) = .ok 2 := rfl

/-- Claim C3 (counterexample): the claim says a many-to-one relationship at a
non-top level is flattened exactly when its local columns differ from the
remote side of the PARENT relationship through which the current model was
reached.  Here the traversal reached `M3` through `rel_mid` (the last history
entry), `parent`'s local columns equal `rel_mid`'s remote side — so the claim
predicts nothing is yielded — yet the policy flattens, because the source
compares against `walker.history[0]`, the FIRST history entry. -/
theorem C3_counterexample :
    hist_of m3_walker [] = [rel_top, rel_mid] ∧
    rel_mid.target = m3_model.name ∧ m3_walker.model = m3_model ∧
    py_set_eq rel_parent.localColumns rel_mid.remoteSide = true ∧
    py_set_eq rel_parent.localColumns rel_top.remoteSide = false ∧
    comfortable_desicion m3_walker [] (.relp rel_parent) false =
      .ok [(.foreignkey, .colp "fk" [fk_col], [("relation", .s "parent")])] :=
  ⟨rfl, rfl, rfl, rfl, rfl, rfl⟩

/-- Claim C3 (amended): at a non-top nesting level the comfortable decision
policy flattens a many-to-one relationship into foreign-key actions tagged
with the relation key exactly when its local columns differ (as sets) from
the remote-side columns of the FIRST relationship in the traversal history
(`walker.history[0]`, the top-level relationship where the traversal began),
not the immediate parent; when they are equal it yields nothing. -/
theorem C3_comfortable_first_history_entry (w : WalkerS) (cur : List RelProp)
    (r rp0 : RelProp) (rest : List RelProp)
    (hh : hist_of w cur = rp0 :: rest) (hd : r.direction = .manytoone) :
    (py_set_eq r.localColumns rp0.remoteSide = true →
      comfortable_desicion w cur (.relp r) false = .ok []) ∧
    (py_set_eq r.localColumns rp0.remoteSide = false →
      (∀ cn ∈ r.localColumns, ∃ pr, props_getitem w.model cn = .ok pr) →
      ∃ ts, comfortable_desicion w cur (.relp r) false = .ok ts ∧
        ts.length = r.localColumns.length ∧
        ∀ t ∈ ts, t.1 = DAction.foreignkey ∧ t.2.2 = [("relation", JVal.s r.key)]) := by
  constructor
  · intro heq
    unfold comfortable_desicion
    rw [hh]
    simp [hd, heq]
  · intro hne hlookup
    obtain ⟨ts, hts, hlen, hall⟩ := flatten_fk_spec w.model r.key r.localColumns hlookup
    refine ⟨ts, ?_, hlen, hall⟩
    unfold comfortable_desicion
    rw [hh]
    simp [hd, hne, hts]

/-- Claim C3 (witness): the amended statement applied to the concrete
fixture, second branch (local columns differ from `history[0]`). -/
theorem C3_comfortable_first_history_entry_witness :
    ∃ ts, comfortable_desicion m3_walker [] (.relp rel_parent) false = .ok ts ∧
      ts.length = rel_parent.localColumns.length ∧
      ∀ t ∈ ts, t.1 = DAction.foreignkey ∧ t.2.2 = [("relation", JVal.s rel_parent.key)] :=
  (C3_comfortable_first_history_entry m3_walker [] rel_parent rel_top [rel_mid]
    rfl rfl).2 rfl
    (by
      intro cn hcn
      have : cn = "fk" := by simpa [rel_parent] using hcn
      exact ⟨.colp "fk" [fk_col], by rw [this]; rfl⟩)

/-- Claim C4: `ChildFactory.child_walker` derives the child's excludes from
the parent walker's INCLUDES (source line 290), not its excludes.  With a
parent exclude `items.secret` the child walker's excludes are only the
relationship's backref (`secret` is not excluded); with a parent include
`items.foo` the narrowed includes leak into the excludes too and the clone's
`__init__` conflict check raises `InvalidStatus`. -/
theorem C4_child_excludes_from_includes :
    p_walker_excl.excludes = some ["items.secret"] ∧
    (child_walker ex_cfg g_items rel_items4 p_walker_excl [rel_items4]).map
      (fun cw => cw.excludes) = .ok (some ["parent"]) ∧
    p_walker_incl.includes = some ["items.foo"] ∧
    child_walker ex_cfg g_items rel_items4 p_walker_incl [rel_items4] =
      .error (.invalidStatus (.conflict ["foo"] ["foo", "parent"])) :=
  ⟨rfl, rfl, rfl, rfl⟩

/-- Claim C5: generating `User` with override mapping `name ↦ ov_frag` does
NOT replace the generated field schema for `name` with `ov_frag`: the source
writes the whole override mapping INTO the generated field schema, so the
final `properties.name` is the generated schema with an extra `name` entry
holding `ov_frag`, which differs from `ov_frag`. -/
theorem C5_override_not_replacing :
    schema_call ex_cfg g_user 10 "User" none none [("name", .v ov_frag)] none =
      .ok { name := "user",
            schema :=
              [("$schema", .s "http://json-schema.org/draft-04/schema#"),
               ("title", .s "User"), ("type", .s "object"),
               ("properties", .obj
                 [("name", .obj [("type", .s "string"), ("maxLength", .n 50),
                                 ("name", ov_frag)])])] } ∧
    JVal.obj [("type", .s "string"), ("maxLength", .n 50), ("name", ov_frag)] ≠ ov_frag :=
  ⟨rfl, by simp [ov_frag]⟩

/-- Claim C8: in inline-definitions mode the `required` list stored on
`definitions.Item` is computed from the PARENT walker (the source passes
`walker`, not `subwalker`, at line 445): it lists the parent's required
column `aid` instead of the child's own `iid`, which the child walker's
`_detect_required` would produce. -/
theorem C8_definitions_required_from_parent :
    schema_call ex_cfg g_items 10 "A" none none [] none =
      .ok { name := "a",
            schema :=
              [("$schema", .s "http://json-schema.org/draft-04/schema#"),
               ("title", .s "A"), ("type", .s "object"),
               ("definitions", .obj
                 [("Item", .obj
                    [("type", .s "object"),
                     ("properties", .obj [("iid", .obj [("type", .s "integer")])]),
                     ("required", .arr [.s "aid"])])]),
               ("properties", .obj
                 [("aid", .obj [("type", .s "integer")]),
                  ("items", .obj [("type", .s "array"),
                                  ("items", .obj [("$ref", .s "#/definitions/Item")])])]),
               ("required", .arr [.s "aid"])] } ∧
    child_walker ex_cfg g_items rel_items a_walker [rel_items] = .ok item_child_walker ∧
    detect_required item_child_walker [rel_items] = .ok ["iid"] ∧
    JVal.arr [.s "aid"] ≠ JVal.arr [.s "iid"] :=
  ⟨rfl, rfl, rfl, by simp⟩

/-- Claim C9 (counterexample): a decorator instance of class `D` wrapping an
implementation type that is ITSELF a decorator of class `D` (with `D` in the
mapping) classifies as `("D", "string")`, while classifying the wrapped
implementation type directly unwraps once more and yields
`("Integer", "integer")` — so the round-trip claim fails as stated. -/
theorem C9_counterexample :
    outer_dec.isDecorator = true ∧
    outer_dec.impl = some inner_dec ∧
    alist_get map9 inner_dec.clsName = some "string" ∧
    classifier_getitem ex_mro map9 outer_dec = .ok ("D", "string") ∧
    classifier_getitem ex_mro map9 inner_dec = .ok ("Integer", "integer") ∧
    (("D", "string") : String × String) ≠ ("Integer", "integer") :=
  ⟨rfl, rfl, rfl, rfl, rfl, by decide⟩

/-- Claim C9 (amended): for a decorator wrapping an implementation type that
is NOT itself a decorator and whose class (or an ancestor) is in the
classifier mapping, classifying the decorator returns exactly the result of
classifying the wrapped implementation type directly. -/
theorem C9_decorator_roundtrip (classMro : String → List String)
    (mapping : List (String × String)) (k i : ColType)
    (hk : k.isDecorator = true) (hki : k.impl = some i)
    (hi : i.isDecorator = false)
    (hmap : (alist_get mapping i.clsName).isSome = true ∨
            (mro_find mapping (classMro i.clsName)).isSome = true) :
    ∃ cv, classifier_getitem classMro mapping k = .ok cv ∧
          classifier_getitem classMro mapping i = .ok cv := by
  have heq : classifier_getitem classMro mapping k = classifier_getitem classMro mapping i := by
    unfold classifier_getitem
    rw [hk, hki, hi]
    rfl
  rw [heq]
  simp only [and_self]
  cases hex : alist_get mapping i.clsName with
  | some v =>
    exact ⟨(i.clsName, v), by unfold classifier_getitem; rw [hi]; simp [hex, pure, Except.pure, bind, Except.bind]⟩
  | none =>
    rcases hmap with hm | hm
    · rw [hex] at hm
      cases hm
    · obtain ⟨cv, hcv⟩ := Option.isSome_iff_exists.mp hm
      exact ⟨cv, by unfold classifier_getitem; rw [hi]; simp [hex, hcv, pure, Except.pure, bind, Except.bind]⟩

/-- Claim C9 (witness): the amended round-trip applied to a decorator
wrapping a plain `Integer`. -/
theorem C9_decorator_roundtrip_witness :
    ∃ cv, classifier_getitem ex_mro map9 inner_dec = .ok cv ∧
          classifier_getitem ex_mro map9 inner_native = .ok cv :=
  C9_decorator_roundtrip ex_mro map9 inner_dec inner_native rfl rfl rfl
    (Or.inl rfl)

/-- Claim C7: constructing a walker whose non-null includes and excludes
share a key raises `InvalidStatus` in `BaseModelWalker.__init__`, before any
traversal; with disjoint or absent include/exclude sets the construction
succeeds and returns the walker. -/
theorem C7_walker_conflict (includes excludes : Option (List String)) (m : Model) :
    (∀ inc exc k, includes = some inc → excludes = some exc → k ∈ inc → k ∈ exc →
      mk_root_walker m includes excludes = .error (.invalidStatus (.conflict inc exc))) ∧
    ((∀ inc exc, includes = some inc → excludes = some exc → ∀ k, k ∈ inc → k ∉ exc) →
      mk_root_walker m includes excludes =
        .ok { model := m, includes := includes, excludes := excludes, hist := .fixed [] }) := by
  constructor
  · intro inc exc k hi he hki hke
    subst hi he
    have h1 : py_truthy_list (some inc) = true := by
      simp only [py_truthy_list, Bool.not_eq_true']
      rw [← Bool.not_eq_true, Bool.not_eq_true, List.isEmpty_eq_false_iff_exists_mem]
      exact ⟨k, hki⟩
    have h2 : py_truthy_list (some exc) = true := by
      simp only [py_truthy_list, Bool.not_eq_true']
      rw [← Bool.not_eq_true, Bool.not_eq_true, List.isEmpty_eq_false_iff_exists_mem]
      exact ⟨k, hke⟩
    have h3 : (inc.filter (fun k2 => exc.contains k2)).isEmpty = false := by
      rw [List.isEmpty_eq_false_iff_exists_mem]
      exact ⟨k, List.mem_filter.mpr ⟨hki, List.elem_iff.mpr hke⟩⟩
    unfold mk_root_walker base_walker_check
    rw [h1, h2]
    simp only [Bool.and_self, if_pos, Option.getD_some]
    rw [h3]
    rfl
  · intro hdisj
    cases includes with
    | none =>
      unfold mk_root_walker base_walker_check py_truthy_list
      rfl
    | some inc =>
      cases excludes with
      | none =>
        unfold mk_root_walker base_walker_check py_truthy_list
        simp [Except.map]
      | some exc =>
        have hfil : inc.filter (fun k2 => exc.contains k2) = [] := by
          rw [List.filter_eq_nil_iff]
          intro a ha h
          exact hdisj inc exc rfl rfl a ha (List.elem_iff.mp h)
        unfold mk_root_walker base_walker_check
        simp only [Option.getD_some]
        rw [hfil]
        simp [Except.map]

/-- Claim C7 (witness): overlapping includes/excludes fail with the conflict
`InvalidStatus`; disjoint ones construct the walker. -/
theorem C7_walker_conflict_witness :
    mk_root_walker user_model (some ["id"]) (some ["id"]) =
      .error (.invalidStatus (.conflict ["id"] ["id"])) ∧
    mk_root_walker user_model (some ["id"]) (some ["name"]) =
      .ok { model := user_model, includes := some ["id"], excludes := some ["name"],
            hist := .fixed [] } :=
  ⟨(C7_walker_conflict (some ["id"]) (some ["id"]) user_model).1 ["id"] ["id"] "id"
      rfl rfl (by decide) (by decide),
   (C7_walker_conflict (some ["id"]) (some ["name"]) user_model).2
     (fun inc exc hi he k hki hke => by
        injection hi with hi
        injection he with he
        subst hi he
        simp only [List.mem_singleton] at hki
        subst hki
        simp at hke)⟩

/-- Claim C10: when a produced column's name is a key of the override
mapping, `CollectionForOverrides.overrides` writes EVERY key-value pair of
the whole mapping into that single field schema and removes every key from
the not-used set at once; consequently, generating the two-column model with
two distinct override keys raises `KeyError` (not `InvalidStatus`): the
second column's application tries to remove already-removed keys. -/
theorem C10_overrides_bulk_write (ps : List (String × OVal)) (nu : List String) (d : JDict)
    (h1 : (ps.map (·.1)).Nodup) (h2 : nu.Nodup)
    (h3 : ∀ k ∈ ps.map (·.1), k ∈ nu)
    (h4 : ∀ kv ∈ ps, ∃ j, kv.2 = OVal.v j) :
    (∃ o2 d2, overrides_apply { params := ps, notUsedKeys := nu } d = .ok (o2, d2) ∧
      (∀ k j, (k, OVal.v j) ∈ ps → alist_get d2 k = some j) ∧
      (∀ k ∈ ps.map (·.1), k ∉ o2.notUsedKeys)) ∧
    schema_call ex_cfg g_twocol 10 "T" none none
      [("a", .v (.s "X")), ("b", .v (.s "Y"))] none = .error (.py (.keyError "a")) := by
  constructor
  · obtain ⟨nu2, d2, hgo, hw, hc, _, _, _⟩ := overrides_go_spec ps nu d h1 h2 h3 h4
    refine ⟨{ params := ps, notUsedKeys := nu2 }, d2, ?_, hw, hc⟩
    unfold overrides_apply
    rw [hgo]
    rfl
  · rfl

/-- Claim C10 (witness): the bulk-write behavior at a concrete two-key
override mapping applied to one field schema. -/
theorem C10_overrides_bulk_write_witness :
    (∃ o2 d2, overrides_apply
        { params := [("a", OVal.v (.s "X")), ("b", OVal.v (.s "Y"))],
          notUsedKeys := ["a", "b"] } [("type", .s "integer")] = .ok (o2, d2) ∧
      (∀ k j, (k, OVal.v j) ∈ [("a", OVal.v (JVal.s "X")), ("b", OVal.v (JVal.s "Y"))] →
        alist_get d2 k = some j) ∧
      (∀ k ∈ [("a", OVal.v (JVal.s "X")), ("b", OVal.v (JVal.s "Y"))].map (·.1),
        k ∉ o2.notUsedKeys)) ∧
    schema_call ex_cfg g_twocol 10 "T" none none
      [("a", .v (.s "X")), ("b", .v (.s "Y"))] none = .error (.py (.keyError "a")) :=
  C10_overrides_bulk_write [("a", .v (.s "X")), ("b", .v (.s "Y"))] ["a", "b"]
    [("type", .s "integer")] (by decide) (by decide) (by decide)
    (by
      intro kv hkv
      simp only [List.mem_cons, List.not_mem_nil, or_false] at hkv
      rcases hkv with rfl | rfl
      · exact ⟨_, rfl⟩
      · exact ⟨_, rfl⟩)

/-- Claim C6: after a complete properties build, `SchemaFactory.__call__`
fails with `InvalidStatus` listing exactly the unconsumed override keys when
any remain, and raises no leftover-override error when every key was
consumed. -/
theorem C6_leftover_overrides (cfg : FactoryConfig) (g : Graph) (fuel : Nat)
    (modelName : String) (inc exc : Option (List String)) (ovp : List (String × OVal))
    (depth : Option Int) (m : Model) (w : WalkerS) (st : BuildSt)
    (hm : find_model g modelName = .ok m)
    (hw : mk_root_walker m inc exc = .ok w)
    (hb : build_properties cfg g fuel w (mk_overrides ovp) depth none [] true = .ok st) :
    (st.2.1.notUsedKeys ≠ [] →
      schema_call cfg g fuel modelName inc exc ovp depth =
        .error (.py (.invalidStatus (.overridesUnused st.2.1.notUsedKeys)))) ∧
    (st.2.1.notUsedKeys = [] →
      ∀ ks, schema_call cfg g fuel modelName inc exc ovp depth ≠
        .error (.py (.invalidStatus (.overridesUnused ks)))) := by
  obtain ⟨props, ov1, defs, hist⟩ := st
  constructor
  · intro hne
    have hie : ov1.notUsedKeys.isEmpty = false := by
      rw [List.isEmpty_eq_false_iff_exists_mem]
      exact List.exists_mem_of_ne_nil _ (by simpa using hne)
    simp only [schema_call, schema_call_hist, hm, hw, hb, Except.mapError, Except.map,
      bind, Except.bind, hie, Bool.not_false, if_pos]
  · intro hemp ks
    have hie : ov1.notUsedKeys.isEmpty = true := by
      rw [List.isEmpty_iff]
      simpa using hemp
    cases hd : detect_required w hist with
    | ok req =>
      simp only [schema_call, schema_call_hist, hm, hw, hb, Except.mapError, Except.map,
        bind, Except.bind, hie, Bool.not_true, Bool.false_eq_true, if_neg, hd]
      simp [Except.map, pure, Except.pure]
    | error e =>
      obtain ⟨k, hk⟩ := detect_required_error w hist e hd
      subst hk
      simp only [schema_call, schema_call_hist, hm, hw, hb, Except.mapError, Except.map,
        bind, Except.bind, hie, Bool.not_true, Bool.false_eq_true, if_neg, hd]
      simp

/-- Claim C6 (witness): the check applied to the concrete one-column model
with a never-consumed override key `bogus`. -/
theorem C6_leftover_overrides_witness :
    schema_call ex_cfg g_u2 10 "U2" none none [("bogus", .v (.s "x"))] none =
      .error (.py (.invalidStatus (.overridesUnused ["bogus"]))) :=
  (C6_leftover_overrides ex_cfg g_u2 10 "U2" none none [("bogus", .v (.s "x"))] none
    u2_model { model := u2_model, includes := none, excludes := none, hist := .fixed [] }
    ([("id", .obj [("type", .s "integer")])],
      { params := [("bogus", .v (.s "x"))], notUsedKeys := ["bogus"] }, none, [])
    rfl rfl rfl).1 (by simp)

/-! Lemmas for claim C2: history growth, the termination measure, and the
per-property descent count. -/

theorem find_model_mem (g : Graph) (n : String) (m : Model)
    (h : find_model g n = .ok m) : m ∈ g.models := by
  unfold find_model at h
  cases hf : g.models.find? (fun m2 => m2.name == n) with
  | some m2 =>
    rw [hf] at h
    cases h
    exact List.mem_of_find?_eq_some hf
  | none =>
    rw [hf] at h
    cases h

theorem alist_get_mem {α : Type} (d : List (String × α)) (k : String) (v : α)
    (h : alist_get d k = some v) : v ∈ d.map (·.2) := by
  induction d with
  | nil => cases h
  | cons kv rest ih =>
    by_cases hk : (kv.1 == k) = true
    · simp only [alist_get, hk, if_pos, Option.some.injEq] at h
      subst h
      simp
    · simp only [alist_get, hk, Bool.false_eq_true, if_neg] at h
      exact List.mem_cons_of_mem _ (ih h)

theorem props_getitem_mem (m : Model) (k : String) (p : MProp)
    (h : props_getitem m k = .ok p) : p ∈ m.props.map (·.2) := by
  unfold props_getitem at h
  cases ha : alist_get m.props k with
  | some p2 =>
    rw [ha] at h
    cases h
    exact alist_get_mem m.props k _ ha
  | none =>
    rw [ha] at h
    cases h

theorem iterate_cols_mem (m : Model) (cs : List Column) (l : List MProp)
    (h : iterate_cols m cs = .ok l) : ∀ p ∈ l, p ∈ m.props.map (·.2) := by
  induction cs generalizing l with
  | nil =>
    cases h
    intro p hp
    cases hp
  | cons c rest ih =>
    unfold iterate_cols at h
    cases hp : props_getitem m c.name with
    | error e => rw [hp] at h; cases h
    | ok p0 =>
      rw [hp] at h
      simp only [bind, Except.bind] at h
      cases hr : iterate_cols m rest with
      | error e => rw [hr] at h; cases h
      | ok ps0 =>
        rw [hr] at h
        simp only [pure, Except.pure] at h
        cases h
        intro p hp2
        rcases List.mem_cons.mp hp2 with h2 | h2
        · subst h2
          exact props_getitem_mem m c.name p hp
        · exact ih ps0 hr p h2

theorem rel_universe_of_mem (g : Graph) (m : Model) (hm : m ∈ g.models)
    (r : RelProp) (h : MProp.relp r ∈ m.relationships ∨ MProp.relp r ∈ m.props.map (·.2)) :
    r ∈ rel_universe g := by
  unfold rel_universe
  rw [List.mem_flatMap]
  refine ⟨m, hm, ?_⟩
  rw [List.mem_append]
  rcases h with h | h
  · exact Or.inl (List.mem_filterMap.mpr ⟨.relp r, h, rfl⟩)
  · exact Or.inr (List.mem_filterMap.mpr ⟨.relp r, h, rfl⟩)

theorem iterate_props_rel_mem (g : Graph) (m : Model) (ps : List MProp)
    (hm : m ∈ g.models) (h : iterate_props m = .ok ps) :
    ∀ r : RelProp, MProp.relp r ∈ ps → r ∈ rel_universe g := by
  unfold iterate_props at h
  cases hc : iterate_cols m m.columns with
  | error e => rw [hc] at h; cases h
  | ok l =>
    rw [hc] at h
    simp only [bind, Except.bind, pure, Except.pure] at h
    cases h
    intro r hr
    rcases List.mem_append.mp hr with h2 | h2
    · exact rel_universe_of_mem g m hm r (Or.inr (iterate_cols_mem m m.columns l hc _ h2))
    · exact rel_universe_of_mem g m hm r (Or.inl h2)

theorem filter_len_le {α : Type} (l : List α) (p q : α → Bool)
    (h : ∀ x, q x = true → p x = true) :
    (l.filter q).length ≤ (l.filter p).length := by
  induction l with
  | nil => simp
  | cons a rest ih =>
    by_cases hq : q a = true
    · simp only [List.filter_cons, hq, h a hq, if_pos, List.length_cons]
      omega
    · simp only [List.filter_cons, hq, if_neg, Bool.false_eq_true, if_false]
      by_cases hp : p a = true
      · simp only [hp, if_pos, List.length_cons]
        omega
      · simp only [hp, if_neg, Bool.false_eq_true, if_false]
        exact ih

theorem filter_len_lt {α : Type} (l : List α) (p q : α → Bool) (a : α)
    (h : ∀ x, q x = true → p x = true) (ha : a ∈ l) (hpa : p a = true) (hqa : q a = false) :
    (l.filter q).length < (l.filter p).length := by
  induction l with
  | nil => cases ha
  | cons b rest ih =>
    rcases List.mem_cons.mp ha with h2 | h2
    · subst h2
      simp only [List.filter_cons, hpa, if_pos, hqa, Bool.false_eq_true, if_neg,
        List.length_cons]
      exact Nat.lt_succ_of_le (filter_len_le rest p q h)
    · by_cases hq : q b = true
      · simp only [List.filter_cons, hq, h b hq, if_pos, List.length_cons]
        exact Nat.succ_lt_succ (ih h2)
      · simp only [List.filter_cons, hq, Bool.false_eq_true, if_neg]
        by_cases hp : p b = true
        · simp only [hp, if_pos, List.length_cons]
          exact Nat.lt_succ_of_lt (ih h2)
        · simp only [hp, Bool.false_eq_true, if_neg]
          exact ih h2

theorem fresh_mono (g : Graph) (h1 h2 : List RelProp) (hsub : ∀ x ∈ h1, x ∈ h2) :
    fresh_count g h2 ≤ fresh_count g h1 := by
  unfold fresh_count
  apply filter_len_le
  intro x hx
  rw [Bool.not_eq_true'] at hx ⊢
  rw [← Bool.not_eq_true] at hx ⊢
  intro hmem
  exact hx (List.elem_iff.mpr (hsub x (List.elem_iff.mp hmem)))

theorem fresh_strict (g : Graph) (hist : List RelProp) (r : RelProp)
    (hu : r ∈ rel_universe g) (hn : r ∉ hist) :
    fresh_count g (hist ++ [r]) < fresh_count g hist := by
  unfold fresh_count
  apply filter_len_lt _ _ _ r
  · intro x hx
    rw [Bool.not_eq_true'] at hx ⊢
    rw [← Bool.not_eq_true] at hx ⊢
    intro hmem
    exact hx (List.elem_iff.mpr (List.mem_append_left _ (List.elem_iff.mp hmem)))
  · exact hu
  · rw [Bool.not_eq_true']
    rw [← Bool.not_eq_true]
    intro hmem
    exact hn (List.elem_iff.mp hmem)
  · rw [Bool.not_eq_false']
    exact List.elem_iff.mpr (List.mem_append_right _ (List.mem_singleton.mpr rfl))

theorem HExt_refl (h : List RelProp) : HExt h h :=
  ⟨[], by simp, List.nodup_nil, by simp⟩

theorem HExt_trans (h1 h2 h3 : List RelProp) (a : HExt h1 h2) (b : HExt h2 h3) :
    HExt h1 h3 := by
  obtain ⟨e1, he1, hn1, hd1⟩ := a
  obtain ⟨e2, he2, hn2, hd2⟩ := b
  subst he1
  refine ⟨e1 ++ e2, by rw [he2, List.append_assoc], ?_, ?_⟩
  · rw [List.nodup_append]
    exact ⟨hn1, hn2, fun x hx1 hx2 => hd2 x hx2 (List.mem_append_right _ hx1)⟩
  · intro x hx hx1
    rcases List.mem_append.mp hx with h | h
    · exact hd1 x h hx1
    · exact hd2 x h (List.mem_append_left _ hx1)

theorem HExt_single (h : List RelProp) (r : RelProp) (hn : r ∉ h) : HExt h (h ++ [r]) :=
  ⟨[r], rfl, List.nodup_singleton r, by simpa using hn⟩

theorem HExt_mem (h1 h2 : List RelProp) (a : HExt h1 h2) : ∀ x ∈ h1, x ∈ h2 := by
  obtain ⟨e, he, _, _⟩ := a
  subst he
  intro x hx
  exact List.mem_append_left _ hx

/-- The key counting law: extending a history by a fresh duplicate-free block
can spend at most one unit of any property's flag budget. -/
theorem HExt_count (h1 h2 : List RelProp) (a : HExt h1 h2) (x : RelProp) :
    h2.count x + hflag x h2 ≤ h1.count x + hflag x h1 := by
  obtain ⟨e, he, hn, hd⟩ := a
  subst he
  rw [List.count_append]
  by_cases hx1 : x ∈ h1
  · have hxe : x ∉ e := fun hxe => hd x hxe hx1
    have : e.count x = 0 := List.count_eq_zero.mpr hxe
    simp [hflag, hx1, this, List.mem_append, hx1]
  · by_cases hxe : x ∈ e
    · have h2x : x ∈ h1 ++ e := List.mem_append_right _ hxe
      have : e.count x ≤ 1 := List.nodup_iff_count_le_one.mp hn x
      simp only [hflag, if_pos h2x, if_neg hx1]
      omega
    · have : e.count x = 0 := List.count_eq_zero.mpr hxe
      have h2x : x ∉ h1 ++ e := by
        rw [List.mem_append]
        rintro (h | h)
        · exact hx1 h
        · exact hxe h
      simp [hflag, hx1, h2x, this]

theorem HExt_count_le (h1 h2 : List RelProp) (a : HExt h1 h2) (x : RelProp) :
    h2.count x ≤ h1.count x + hflag x h1 :=
  Nat.le_trans (Nat.le_add_right _ _) (HExt_count h1 h2 a x)

theorem hflag_mono (x : RelProp) (h1 h2 : List RelProp) (hsub : ∀ y ∈ h1, y ∈ h2) :
    hflag x h2 ≤ hflag x h1 := by
  unfold hflag
  by_cases hx : x ∈ h1
  · rw [if_pos hx, if_pos (hsub x hx)]
  · rw [if_neg hx]
    by_cases hx2 : x ∈ h2
    · rw [if_pos hx2]
      omega
    · rw [if_neg hx2]

theorem child_walker_shared (cfg : FactoryConfig) (g : Graph) (r : RelProp)
    (w : WalkerS) (hist : List RelProp) (cw : WalkerS)
    (h : child_walker cfg g r w hist = .ok cw) (hne : hist ≠ []) :
    cw.hist = HistRef.shared ∧ cw.model ∈ g.models := by
  unfold child_walker at h
  cases hf : find_model g r.target with
  | error e =>
    rw [hf] at h
    simp only [bind, Except.bind] at h
    cases h
  | ok target =>
    rw [hf] at h
    simp only [bind, Except.bind] at h
    cases hc : base_walker_check
        (get_children_list r.key w.includes cfg.splitter none)
        (some (if cfg.bidirectional then
            (get_children_list r.key w.includes cfg.splitter (some [])).getD []
          else
            (get_children_list r.key w.includes cfg.splitter (some [])).getD [] ++
              (r.backPopulates.toList ++ r.backref.toList))) with
    | error e =>
      rw [hc] at h
      cases h
    | ok u =>
      rw [hc] at h
      simp only [Except.map] at h
      cases h
      constructor
      · simp only
        rw [if_neg (by simpa [List.isEmpty_iff] using hne)]
      · exact find_model_mem g r.target target hf

theorem flatten_fk_all_fk (m : Model) (relKey : String) (cns : List String)
    (ts : List Triple) (h : flatten_fk m relKey cns = .ok ts) :
    ∀ t ∈ ts, t.1 = DAction.foreignkey := by
  induction cns generalizing ts with
  | nil =>
    cases h
    intro t ht
    cases ht
  | cons cn rest ih =>
    unfold flatten_fk at h
    cases hp : props_getitem m cn with
    | error e => rw [hp] at h; cases h
    | ok pr =>
      rw [hp] at h
      simp only [bind, Except.bind] at h
      cases hr : flatten_fk m relKey rest with
      | error e => rw [hr] at h; cases h
      | ok ts0 =>
        rw [hr] at h
        simp only [pure, Except.pure] at h
        cases h
        intro t ht
        rcases List.mem_cons.mp ht with h2 | h2
        · subst h2
          rfl
        · exact ih ts0 hr t h2

theorem run_desicion_rel_singleton (cfg : FactoryConfig) (w : WalkerS)
    (cur : List RelProp) (p : MProp) (toplevel : Bool) (ts : List Triple)
    (h : run_desicion cfg w cur p toplevel = .ok ts) :
    ∀ t ∈ ts, t.1 = DAction.relationship → ts = [(DAction.relationship, p, [])] := by
  intro t ht hrel
  unfold run_desicion at h
  cases hk : cfg.decision with
  | strict =>
    rw [hk] at h
    dsimp only at h
    unfold relation_desicion at h
    cases p with
    | relp r =>
      cases h
      rfl
    | colp key cols =>
      cases h
      rcases List.mem_cons.mp ht with h2 | h2
      · rw [h2] at hrel
        cases hrel
      · cases h2
  | comfortable =>
    rw [hk] at h
    dsimp only at h
    unfold comfortable_desicion at h
    cases p with
    | colp key cols =>
      cases h
      rcases List.mem_cons.mp ht with h2 | h2
      · rw [h2] at hrel
        cases hrel
      · cases h2
    | relp r =>
      dsimp only at h
      by_cases hd : r.direction = Direction.manytoone
      · rw [if_pos hd] at h
        cases toplevel with
        | true =>
          simp only [if_pos] at h
          have := flatten_fk_all_fk w.model r.key r.localColumns ts h t ht
          rw [this] at hrel
          cases hrel
        | false =>
          simp only [Bool.false_eq_true, if_neg] at h
          cases hh : hist_of w cur with
          | nil =>
            rw [hh] at h
            cases h
          | cons rp0 hrest =>
            rw [hh] at h
            by_cases hset : py_set_eq r.localColumns rp0.remoteSide = true
            · simp only [hset, Bool.not_true, Bool.false_eq_true, if_false] at h
              cases h
              cases ht
            · rw [Bool.not_eq_true] at hset
              simp only [hset, Bool.not_false, if_true] at h
              have := flatten_fk_all_fk w.model r.key r.localColumns ts h t ht
              rw [this] at hrel
              cases hrel
      · rw [if_neg hd] at h
        by_cases hm2 : r.direction = Direction.manytomany
        · rw [if_pos hm2] at h
          cases h
          rcases List.mem_cons.mp ht with h2 | h2
          · rw [h2] at hrel
            cases hrel
          · cases h2
        · rw [if_neg hm2] at h
          cases h
          rfl

theorem triples_loop_norel (cfg : FactoryConfig) (g : Graph) (recur : BuildRecur)
    (w : WalkerS) (depth : Option Int) (ts : List Triple) :
    ∀ acc ov defs hist, (∀ t ∈ ts, t.1 ≠ DAction.relationship) →
      (∀ st, triples_loop cfg g recur w depth ts acc ov defs hist = .ok st →
        st.2.2.2 = hist) ∧
      triples_loop cfg g recur w depth ts acc ov defs hist ≠ .error .outOfFuel := by
  induction ts with
  | nil =>
    intro acc ov defs hist _
    constructor
    · intro st hst
      cases hst
      rfl
    · intro hst
      cases hst
  | cons t rest ih =>
    intro acc ov defs hist hno
    obtain ⟨a, p, opts⟩ := t
    have hna : a ≠ DAction.relationship := hno (a, p, opts) (by simp)
    have hnorest : ∀ t2 ∈ rest, t2.1 ≠ DAction.relationship :=
      fun t2 ht2 => hno t2 (List.mem_cons_of_mem _ ht2)
    cases a with
    | relationship => exact absurd rfl hna
    | foreignkey =>
      cases p with
      | colp key cols =>
        constructor
        · intro st hst
          unfold triples_loop at hst
          dsimp only at hst
          cases hc : columns_loop cfg opts cols acc ov none with
          | error e =>
            rw [hc] at hst
            simp only [Except.mapError, bind, Except.bind] at hst
            cases hst
          | ok res =>
            obtain ⟨acc1, ov1, lastSub⟩ := res
            rw [hc] at hst
            simp only [Except.mapError, bind, Except.bind] at hst
            cases lastSub with
            | none => cases hst
            | some sub =>
              exact (ih (dict_setitem acc1 key (.obj sub)) ov1 defs hist hnorest).1 st hst
        · intro hst
          unfold triples_loop at hst
          dsimp only at hst
          cases hc : columns_loop cfg opts cols acc ov none with
          | error e =>
            rw [hc] at hst
            simp only [Except.mapError, bind, Except.bind] at hst
            cases hst
          | ok res =>
            obtain ⟨acc1, ov1, lastSub⟩ := res
            rw [hc] at hst
            simp only [Except.mapError, bind, Except.bind] at hst
            cases lastSub with
            | none => cases hst
            | some sub =>
              exact (ih (dict_setitem acc1 key (.obj sub)) ov1 defs hist hnorest).2 hst
      | relp r =>
        constructor
        · intro st hst
          unfold triples_loop at hst
          dsimp only at hst
          cases hst
        · intro hst
          unfold triples_loop at hst
          dsimp only at hst
          cases hst
    | immediate v =>
      constructor
      · intro st hst
        unfold triples_loop at hst
        dsimp only at hst
        exact (ih (dict_setitem acc (prop_key p) v) ov defs hist hnorest).1 st hst
      · intro hst
        unfold triples_loop at hst
        dsimp only at hst
        exact (ih (dict_setitem acc (prop_key p) v) ov defs hist hnorest).2 hst

theorem triples_loop_single_rel (cfg : FactoryConfig) (g : Graph) (recur : BuildRecur)
    (w : WalkerS) (depth : Option Int) (r : RelProp) (opts : JDict)
    (acc : JDict) (ov : Overrides) (defs : Option JDict) (hist : List RelProp)
    (hrec : RecurHExt recur) :
    (∀ st, triples_loop cfg g recur w depth [(DAction.relationship, MProp.relp r, opts)]
        acc ov defs hist = .ok st → HExt (hist ++ [r]) st.2.2.2) ∧
    ((∀ w2 ov2 dep2 defs2 tl2, w2.hist = HistRef.shared → w2.model ∈ g.models →
        recur w2 ov2 dep2 defs2 (hist ++ [r]) tl2 ≠ .error .outOfFuel) →
      triples_loop cfg g recur w depth [(DAction.relationship, MProp.relp r, opts)]
        acc ov defs hist ≠ .error .outOfFuel) := by
  constructor
  · intro st hst
    unfold triples_loop at hst
    dsimp only at hst
    cases hc : child_walker cfg g r w (hist ++ [r]) with
    | error e =>
      rw [hc] at hst
      simp only [Except.mapError, bind, Except.bind] at hst
      cases hst
    | ok cw =>
      rw [hc] at hst
      simp only [Except.mapError, bind, Except.bind] at hst
      obtain ⟨hcw, _⟩ := child_walker_shared cfg g r w (hist ++ [r]) cw hc (by simp)
      cases hr : recur cw (child_overrides cfg r ov) (py_depth_child depth) defs
          (hist ++ [r]) false with
      | error e =>
        rw [hr] at hst
        cases hst
      | ok st1 =>
        obtain ⟨subprops, x1, defs1, hist2⟩ := st1
        rw [hr] at hst
        dsimp only at hst
        have hext : HExt (hist ++ [r]) hist2 :=
          hrec cw (child_overrides cfg r ov) (py_depth_child depth) defs
            (hist ++ [r]) false (subprops, x1, defs1, hist2) hcw hr
        cases ha : add_property_with_reference cfg g w hist2 defs1 acc r
            (child_schema_value r.direction subprops) with
        | error e =>
          rw [ha] at hst
          simp only [Except.mapError, bind, Except.bind] at hst
          cases hst
        | ok res =>
          obtain ⟨acc1, defs2⟩ := res
          rw [ha] at hst
          simp only [Except.mapError, bind, Except.bind] at hst
          unfold triples_loop at hst
          cases hst
          exact hext
  · intro hnf hst
    unfold triples_loop at hst
    dsimp only at hst
    cases hc : child_walker cfg g r w (hist ++ [r]) with
    | error e =>
      rw [hc] at hst
      simp only [Except.mapError, bind, Except.bind] at hst
      cases hst
    | ok cw =>
      rw [hc] at hst
      simp only [Except.mapError, bind, Except.bind] at hst
      obtain ⟨hcw, hmem⟩ := child_walker_shared cfg g r w (hist ++ [r]) cw hc (by simp)
      cases hr : recur cw (child_overrides cfg r ov) (py_depth_child depth) defs
          (hist ++ [r]) false with
      | error e =>
        rw [hr] at hst
        cases hst
        exact hnf cw (child_overrides cfg r ov) (py_depth_child depth) defs false
          hcw hmem hr
      | ok st1 =>
        obtain ⟨subprops, x1, defs1, hist2⟩ := st1
        rw [hr] at hst
        dsimp only at hst
        cases ha : add_property_with_reference cfg g w hist2 defs1 acc r
            (child_schema_value r.direction subprops) with
        | error e =>
          rw [ha] at hst
          simp only [Except.mapError, bind, Except.bind] at hst
          cases hst
        | ok res =>
          obtain ⟨acc1, defs2⟩ := res
          rw [ha] at hst
          simp only [Except.mapError, bind, Except.bind] at hst
          unfold triples_loop at hst
          cases hst

theorem walk_accepts_rel_not_mem (w : WalkerS) (cur : List RelProp) (r : RelProp)
    (hw : w.hist = HistRef.shared) (h : walk_accepts w cur (.relp r) = true) :
    r ∉ cur := by
  unfold walk_accepts at h
  simp only [Bool.and_eq_true] at h
  have h3 : (!((hist_of w cur).contains r)) = true := by
    have := h.1.2
    simpa using this
  unfold hist_of at h3
  rw [hw] at h3
  rw [Bool.not_eq_true'] at h3
  dsimp only at h3
  intro hmem
  simp [hmem] at h3

theorem props_loop_hext (cfg : FactoryConfig) (g : Graph) (recur : BuildRecur)
    (w : WalkerS) (toplevel : Bool) (depth : Option Int) (hw : w.hist = HistRef.shared)
    (hrec : RecurHExt recur) (ps : List MProp) :
    ∀ acc ov defs hist st,
      props_loop cfg g recur w toplevel depth ps acc ov defs hist = .ok st →
      HExt hist st.2.2.2 := by
  induction ps with
  | nil =>
    intro acc ov defs hist st hst
    cases hst
    exact HExt_refl hist
  | cons p rest ih =>
    intro acc ov defs hist st hst
    unfold props_loop at hst
    by_cases hacc : walk_accepts w hist p = true
    · rw [if_pos hacc] at hst
      cases hd : run_desicion cfg w hist p toplevel with
      | error e =>
        rw [hd] at hst
        dsimp only at hst
        cases hst
      | ok ts =>
        rw [hd] at hst
        dsimp only at hst
        by_cases hrel : ∀ t ∈ ts, t.1 ≠ DAction.relationship
        · cases htl : triples_loop cfg g recur w depth ts acc ov defs hist with
          | error e =>
            rw [htl] at hst
            dsimp only at hst
            cases hst
          | ok st1 =>
            obtain ⟨acc1, ov1, defs1, hist1⟩ := st1
            rw [htl] at hst
            dsimp only at hst
            have hh : hist1 = hist := by
              have := (triples_loop_norel cfg g recur w depth ts acc ov defs hist hrel).1 _ htl
              simpa using this
            subst hh
            exact ih acc1 ov1 defs1 hist1 st hst
        · push_neg at hrel
          obtain ⟨t, ht, hteq⟩ := hrel
          have hts := run_desicion_rel_singleton cfg w hist p toplevel ts hd t ht hteq
          subst hts
          cases p with
          | colp key cols =>
            unfold triples_loop at hst
            dsimp only at hst
            cases hst
          | relp r =>
            have hnot : r ∉ hist := walk_accepts_rel_not_mem w hist r hw hacc
            cases htl : triples_loop cfg g recur w depth
                [(DAction.relationship, MProp.relp r, [])] acc ov defs hist with
            | error e =>
              rw [htl] at hst
              dsimp only at hst
              cases hst
            | ok st1 =>
              obtain ⟨acc1, ov1, defs1, hist1⟩ := st1
              rw [htl] at hst
              dsimp only at hst
              have hext1 : HExt (hist ++ [r]) hist1 := by
                have := (triples_loop_single_rel cfg g recur w depth r [] acc ov defs
                  hist hrec).1 _ htl
                simpa using this
              have hext2 : HExt hist1 st.2.2.2 := ih acc1 ov1 defs1 hist1 st hst
              exact HExt_trans hist hist1 st.2.2.2
                (HExt_trans hist (hist ++ [r]) hist1 (HExt_single hist r hnot) hext1) hext2
    · rw [if_neg hacc] at hst
      exact ih acc ov defs hist st hst

theorem build_properties_hext (cfg : FactoryConfig) (g : Graph) :
    ∀ fuel, RecurHExt (build_properties cfg g fuel) := by
  intro fuel
  induction fuel with
  | zero =>
    intro w ov depth defs hist tl st hw hst
    cases hst
  | succ n ih =>
    intro w ov depth defs hist tl st hw hst
    unfold build_properties at hst
    by_cases hd : depth_exhausted depth = true
    · rw [if_pos hd] at hst
      cases hst
      exact HExt_refl hist
    · rw [if_neg hd] at hst
      cases hi : iterate_props w.model with
      | error e =>
        rw [hi] at hst
        dsimp only at hst
        cases hst
      | ok ps =>
        rw [hi] at hst
        dsimp only at hst
        exact props_loop_hext cfg g (build_properties cfg g n) w tl depth hw ih ps
          [] ov defs hist st hst

theorem props_loop_nf (cfg : FactoryConfig) (g : Graph) (recur : BuildRecur)
    (w : WalkerS) (toplevel : Bool) (depth : Option Int) (F : Nat)
    (hw : w.hist = HistRef.shared)
    (hrecH : RecurHExt recur) (hrecN : RecurNF g recur F) (ps : List MProp)
    (hu : ∀ r : RelProp, MProp.relp r ∈ ps → r ∈ rel_universe g) :
    ∀ acc ov defs hist, fresh_count g hist < F + 1 →
      props_loop cfg g recur w toplevel depth ps acc ov defs hist ≠ .error .outOfFuel := by
  induction ps with
  | nil =>
    intro acc ov defs hist _ hst
    cases hst
  | cons p rest ih =>
    have hurest : ∀ r : RelProp, MProp.relp r ∈ rest → r ∈ rel_universe g :=
      fun r hr => hu r (List.mem_cons_of_mem _ hr)
    intro acc ov defs hist hfr hst
    unfold props_loop at hst
    by_cases hacc : walk_accepts w hist p = true
    · rw [if_pos hacc] at hst
      cases hd : run_desicion cfg w hist p toplevel with
      | error e =>
        rw [hd] at hst
        dsimp only at hst
        cases hst
      | ok ts =>
        rw [hd] at hst
        dsimp only at hst
        by_cases hrel : ∀ t ∈ ts, t.1 ≠ DAction.relationship
        · cases htl : triples_loop cfg g recur w depth ts acc ov defs hist with
          | error e =>
            rw [htl] at hst
            dsimp only at hst
            cases hst
            exact (triples_loop_norel cfg g recur w depth ts acc ov defs hist hrel).2 htl
          | ok st1 =>
            obtain ⟨acc1, ov1, defs1, hist1⟩ := st1
            rw [htl] at hst
            dsimp only at hst
            have hh : hist1 = hist := by
              have := (triples_loop_norel cfg g recur w depth ts acc ov defs hist hrel).1 _ htl
              simpa using this
            subst hh
            exact ih hurest acc1 ov1 defs1 hist1 hfr hst
        · push_neg at hrel
          obtain ⟨t, ht, hteq⟩ := hrel
          have hts := run_desicion_rel_singleton cfg w hist p toplevel ts hd t ht hteq
          subst hts
          cases p with
          | colp key cols =>
            unfold triples_loop at hst
            dsimp only at hst
            exact BuildErr.noConfusion (Except.error.inj hst)
          | relp r =>
            have hnot : r ∉ hist := walk_accepts_rel_not_mem w hist r hw hacc
            have hru : r ∈ rel_universe g := hu r (List.mem_cons_self _ _)
            have hstrict := fresh_strict g hist r hru hnot
            have hfr2 : fresh_count g (hist ++ [r]) < F := by omega
            cases htl : triples_loop cfg g recur w depth
                [(DAction.relationship, MProp.relp r, [])] acc ov defs hist with
            | error e =>
              rw [htl] at hst
              dsimp only at hst
              cases hst
              exact (triples_loop_single_rel cfg g recur w depth r [] acc ov defs
                  hist hrecH).2
                (fun w2 ov2 dep2 defs2 tl2 hw2 hm2 =>
                  hrecN w2 ov2 dep2 defs2 (hist ++ [r]) tl2 hw2 hm2 hfr2) htl
            | ok st1 =>
              obtain ⟨acc1, ov1, defs1, hist1⟩ := st1
              rw [htl] at hst
              dsimp only at hst
              have hext1 : HExt (hist ++ [r]) hist1 := by
                have := (triples_loop_single_rel cfg g recur w depth r [] acc ov defs
                  hist hrecH).1 _ htl
                simpa using this
              have hmono : fresh_count g hist1 ≤ fresh_count g (hist ++ [r]) :=
                fresh_mono g _ _ (HExt_mem _ _ hext1)
              have hfr1 : fresh_count g hist1 < F + 1 := by omega
              exact ih hurest acc1 ov1 defs1 hist1 hfr1 hst
    · rw [if_neg hacc] at hst
      exact ih hurest acc ov defs hist hfr hst

theorem build_properties_nf (cfg : FactoryConfig) (g : Graph) :
    ∀ fuel, RecurNF g (build_properties cfg g fuel) fuel := by
  intro fuel
  induction fuel with
  | zero =>
    intro w ov depth defs hist tl hw hm hfr
    omega
  | succ n ih =>
    intro w ov depth defs hist tl hw hm hfr hst
    unfold build_properties at hst
    by_cases hd : depth_exhausted depth = true
    · rw [if_pos hd] at hst
      cases hst
    · rw [if_neg hd] at hst
      cases hi : iterate_props w.model with
      | error e =>
        rw [hi] at hst
        dsimp only at hst
        cases hst
      | ok ps =>
        rw [hi] at hst
        dsimp only at hst
        exact props_loop_nf cfg g (build_properties cfg g n) w tl depth n hw
          (build_properties_hext cfg g n) ih ps
          (iterate_props_rel_mem g w.model ps hm hi)
          [] ov defs hist hfr hst

theorem props_loop_nf_root (cfg : FactoryConfig) (g : Graph) (recur : BuildRecur)
    (w : WalkerS) (toplevel : Bool) (depth : Option Int) (F : Nat)
    (hrecH : RecurHExt recur) (hrecN : RecurNF g recur F)
    (hF : fresh_count g [] < F) (ps : List MProp) :
    ∀ acc ov defs hist,
      props_loop cfg g recur w toplevel depth ps acc ov defs hist ≠ .error .outOfFuel := by
  induction ps with
  | nil =>
    intro acc ov defs hist hst
    cases hst
  | cons p rest ih =>
    intro acc ov defs hist hst
    unfold props_loop at hst
    by_cases hacc : walk_accepts w hist p = true
    · rw [if_pos hacc] at hst
      cases hd : run_desicion cfg w hist p toplevel with
      | error e =>
        rw [hd] at hst
        dsimp only at hst
        cases hst
      | ok ts =>
        rw [hd] at hst
        dsimp only at hst
        by_cases hrel : ∀ t ∈ ts, t.1 ≠ DAction.relationship
        · cases htl : triples_loop cfg g recur w depth ts acc ov defs hist with
          | error e =>
            rw [htl] at hst
            dsimp only at hst
            cases hst
            exact (triples_loop_norel cfg g recur w depth ts acc ov defs hist hrel).2 htl
          | ok st1 =>
            obtain ⟨acc1, ov1, defs1, hist1⟩ := st1
            rw [htl] at hst
            dsimp only at hst
            exact ih acc1 ov1 defs1 hist1 hst
        · push_neg at hrel
          obtain ⟨t, ht, hteq⟩ := hrel
          have hts := run_desicion_rel_singleton cfg w hist p toplevel ts hd t ht hteq
          subst hts
          cases p with
          | colp key cols =>
            unfold triples_loop at hst
            dsimp only at hst
            exact BuildErr.noConfusion (Except.error.inj hst)
          | relp r =>
            have hfr2 : fresh_count g (hist ++ [r]) < F :=
              lt_of_le_of_lt (fresh_mono g [] (hist ++ [r]) (by simp)) hF
            cases htl : triples_loop cfg g recur w depth
                [(DAction.relationship, MProp.relp r, [])] acc ov defs hist with
            | error e =>
              rw [htl] at hst
              dsimp only at hst
              cases hst
              exact (triples_loop_single_rel cfg g recur w depth r [] acc ov defs
                  hist hrecH).2
                (fun w2 ov2 dep2 defs2 tl2 hw2 hm2 =>
                  hrecN w2 ov2 dep2 defs2 (hist ++ [r]) tl2 hw2 hm2 hfr2) htl
            | ok st1 =>
              obtain ⟨acc1, ov1, defs1, hist1⟩ := st1
              rw [htl] at hst
              dsimp only at hst
              exact ih acc1 ov1 defs1 hist1 hst
    · rw [if_neg hacc] at hst
      exact ih acc ov defs hist hst

theorem count_filterMap_tail_le (p : MProp) (rest : List MProp) (x : RelProp) :
    (rest.filterMap rel_of).count x ≤ ((p :: rest).filterMap rel_of).count x := by
  cases p with
  | colp k cs => simp [List.filterMap_cons, rel_of]
  | relp r =>
    simp only [List.filterMap_cons, rel_of, List.count_cons]
    exact Nat.le_add_right _ _

theorem props_loop_count (cfg : FactoryConfig) (g : Graph) (recur : BuildRecur)
    (w : WalkerS) (toplevel : Bool) (depth : Option Int)
    (hrecH : RecurHExt recur) (ps : List MProp) :
    ∀ acc ov defs hist st,
      props_loop cfg g recur w toplevel depth ps acc ov defs hist = .ok st →
      ∀ x : RelProp,
        st.2.2.2.count x ≤ hist.count x + (ps.filterMap rel_of).count x + hflag x hist := by
  induction ps with
  | nil =>
    intro acc ov defs hist st hst x
    cases hst
    simp only [List.filterMap_nil, List.count_nil]
    omega
  | cons p rest ih =>
    intro acc ov defs hist st hst x
    have htail := count_filterMap_tail_le p rest x
    unfold props_loop at hst
    by_cases hacc : walk_accepts w hist p = true
    · rw [if_pos hacc] at hst
      cases hd : run_desicion cfg w hist p toplevel with
      | error e =>
        rw [hd] at hst
        dsimp only at hst
        cases hst
      | ok ts =>
        rw [hd] at hst
        dsimp only at hst
        by_cases hrel : ∀ t ∈ ts, t.1 ≠ DAction.relationship
        · cases htl : triples_loop cfg g recur w depth ts acc ov defs hist with
          | error e =>
            rw [htl] at hst
            dsimp only at hst
            cases hst
          | ok st1 =>
            obtain ⟨acc1, ov1, defs1, hist1⟩ := st1
            rw [htl] at hst
            dsimp only at hst
            have hh : hist1 = hist := by
              have := (triples_loop_norel cfg g recur w depth ts acc ov defs hist hrel).1 _ htl
              simpa using this
            subst hh
            have := ih acc1 ov1 defs1 hist1 st hst x
            omega
        · push_neg at hrel
          obtain ⟨t, ht, hteq⟩ := hrel
          have hts := run_desicion_rel_singleton cfg w hist p toplevel ts hd t ht hteq
          subst hts
          cases p with
          | colp key cols =>
            unfold triples_loop at hst
            dsimp only at hst
            cases hst
          | relp r =>
            cases htl : triples_loop cfg g recur w depth
                [(DAction.relationship, MProp.relp r, [])] acc ov defs hist with
            | error e =>
              rw [htl] at hst
              dsimp only at hst
              cases hst
            | ok st1 =>
              obtain ⟨acc1, ov1, defs1, hist1⟩ := st1
              rw [htl] at hst
              dsimp only at hst
              have hext1 : HExt (hist ++ [r]) hist1 := by
                have := (triples_loop_single_rel cfg g recur w depth r [] acc ov defs
                  hist hrecH).1 _ htl
                simpa using this
              have e1 := HExt_count (hist ++ [r]) hist1 hext1 x
              rw [List.count_append] at e1
              have e4 : ((MProp.relp r :: rest).filterMap rel_of).count x =
                  (rest.filterMap rel_of).count x + ([r].count x) := by
                simp only [List.filterMap_cons, rel_of, List.count_cons, List.count_nil]
                omega
              have e6 : hflag x (hist ++ [r]) ≤ hflag x hist :=
                hflag_mono x hist (hist ++ [r]) (fun y hy => List.mem_append_left _ hy)
              have e7 := ih acc1 ov1 defs1 hist1 st hst x
              omega
    · rw [if_neg hacc] at hst
      have := ih acc ov defs hist st hst x
      omega

theorem build_properties_nf_root (cfg : FactoryConfig) (g : Graph) (fuel : Nat)
    (w : WalkerS) (ov : Overrides) (depth : Option Int) (defs : Option JDict)
    (hist : List RelProp) (toplevel : Bool)
    (hfuel : fresh_count g [] + 2 ≤ fuel) :
    build_properties cfg g fuel w ov depth defs hist toplevel ≠ .error .outOfFuel := by
  cases fuel with
  | zero => omega
  | succ n =>
    intro hst
    unfold build_properties at hst
    by_cases hd : depth_exhausted depth = true
    · rw [if_pos hd] at hst
      cases hst
    · rw [if_neg hd] at hst
      cases hi : iterate_props w.model with
      | error e =>
        rw [hi] at hst
        dsimp only at hst
        cases hst
      | ok ps =>
        rw [hi] at hst
        dsimp only at hst
        exact props_loop_nf_root cfg g (build_properties cfg g n) w toplevel depth n
          (build_properties_hext cfg g n) (build_properties_nf cfg g n)
          (by omega) ps [] ov defs hist hst

/-- Claim C2 (amended): on every model graph — cyclic or self-referential
ones included — a single schema-generation call terminates for every depth
setting including unset (there is a fuel bound past which the embedding
never exhausts), and each relationship property is descended into AT MOST
TWICE within the call (the history is checked before yielding and appended
before recursing in every history-sharing child walker, which alone limits
sub-top-level descents of a property to one; the root walker however checks
its own permanently empty history instead of the shared list, so the
top-level loop can descend the same property once more). -/
theorem C2_terminates_and_at_most_twice (cfg : FactoryConfig) (g : Graph)
    (modelName : String) (inc exc : Option (List String)) (ovp : List (String × OVal))
    (depth : Option Int)
    (hnd : ∀ m ps, find_model g modelName = .ok m → iterate_props m = .ok ps →
      ∀ r : RelProp, (ps.filterMap rel_of).count r ≤ 1) :
    (∃ N, ∀ fuel, N ≤ fuel →
      schema_call_hist cfg g fuel modelName inc exc ovp depth ≠ .error .outOfFuel) ∧
    (∀ fuel res hist, schema_call_hist cfg g fuel modelName inc exc ovp depth =
        .ok (res, hist) → ∀ r : RelProp, hist.count r ≤ 2) := by
  constructor
  · refine ⟨fresh_count g [] + 2, ?_⟩
    intro fuel hfuel hst
    unfold schema_call_hist at hst
    cases hf : find_model g modelName with
    | error e =>
      rw [hf] at hst
      simp only [Except.mapError, bind, Except.bind] at hst
      exact BuildErr.noConfusion (Except.error.inj hst)
    | ok m =>
      rw [hf] at hst
      simp only [Except.mapError, bind, Except.bind] at hst
      cases hw2 : mk_root_walker m inc exc with
      | error e =>
        rw [hw2] at hst
        simp only [Except.mapError, bind, Except.bind] at hst
        exact BuildErr.noConfusion (Except.error.inj hst)
      | ok w =>
        rw [hw2] at hst
        simp only [Except.mapError, bind, Except.bind] at hst
        cases hb : build_properties cfg g fuel w (mk_overrides ovp) depth none [] true with
        | error e =>
          rw [hb] at hst
          dsimp only at hst
          cases hst
          exact build_properties_nf_root cfg g fuel w (mk_overrides ovp) depth none []
            true hfuel hb
        | ok st =>
          obtain ⟨props, ov1, defs, hist1⟩ := st
          rw [hb] at hst
          dsimp only at hst
          by_cases hnu : ov1.notUsedKeys.isEmpty = true
          · rw [hnu] at hst
            simp only [Bool.not_true, Bool.false_eq_true, if_false] at hst
            cases hdt : detect_required w hist1 with
            | error e =>
              rw [hdt] at hst
              simp only [Except.mapError, bind, Except.bind] at hst
              exact BuildErr.noConfusion (Except.error.inj hst)
            | ok req =>
              rw [hdt] at hst
              simp only [Except.mapError, bind, Except.bind, pure, Except.pure] at hst
              cases hst
          · rw [Bool.eq_false_iff.mpr hnu] at hst
            simp only [Bool.not_false] at hst
            simp only [if_true] at hst
            exact BuildErr.noConfusion (Except.error.inj hst)
  · intro fuel res hist hst r
    unfold schema_call_hist at hst
    cases hf : find_model g modelName with
    | error e =>
      rw [hf] at hst
      simp only [Except.mapError, bind, Except.bind] at hst
      cases hst
    | ok m =>
      rw [hf] at hst
      simp only [Except.mapError, bind, Except.bind] at hst
      cases hw2 : mk_root_walker m inc exc with
      | error e =>
        rw [hw2] at hst
        simp only [Except.mapError, bind, Except.bind] at hst
        cases hst
      | ok w =>
        rw [hw2] at hst
        simp only [Except.mapError, bind, Except.bind] at hst
        have hwm : w.model = m := by
          unfold mk_root_walker at hw2
          cases hbc : base_walker_check inc exc with
          | error e =>
            rw [hbc] at hw2
            simp only [Except.map] at hw2
            cases hw2
          | ok u =>
            rw [hbc] at hw2
            simp only [Except.map] at hw2
            cases hw2
            rfl
        cases hb : build_properties cfg g fuel w (mk_overrides ovp) depth none [] true with
        | error e =>
          rw [hb] at hst
          dsimp only at hst
          cases hst
        | ok st =>
          obtain ⟨props, ov1, defs, hist1⟩ := st
          rw [hb] at hst
          dsimp only at hst
          have hh : hist = hist1 := by
            by_cases hnu : ov1.notUsedKeys.isEmpty = true
            · rw [hnu] at hst
              simp only [Bool.not_true, Bool.false_eq_true, if_false] at hst
              cases hdt : detect_required w hist1 with
              | error e =>
                rw [hdt] at hst
                simp only [Except.mapError, bind, Except.bind] at hst
                cases hst
              | ok req =>
                rw [hdt] at hst
                simp only [Except.mapError, bind, Except.bind, pure, Except.pure] at hst
                cases hst
                rfl
            · rw [Bool.eq_false_iff.mpr hnu] at hst
              simp only [Bool.not_false] at hst
              simp only [if_true] at hst
              cases hst
          subst hh
          cases fuel with
          | zero => cases hb
          | succ n =>
            unfold build_properties at hb
            by_cases hd : depth_exhausted depth = true
            · rw [if_pos hd] at hb
              cases hb
              simp
            · rw [if_neg hd] at hb
              cases hi : iterate_props w.model with
              | error e =>
                rw [hi] at hb
                dsimp only at hb
                cases hb
              | ok ps =>
                rw [hi] at hb
                dsimp only at hb
                have hcount := props_loop_count cfg g (build_properties cfg g n) w true
                  depth (build_properties_hext cfg g n) ps [] (mk_overrides ovp) none []
                  (props, ov1, defs, hist) hb r
                have hps : (ps.filterMap rel_of).count r ≤ 1 :=
                  hnd m ps hf (hwm ▸ hi) r
                simp only [List.count_nil, hflag, List.not_mem_nil, if_neg,
                  not_false_eq_true] at hcount
                omega

/-- Claim C2 (witness): the amended termination-and-descent bound applied to
the concrete cyclic fixture graph. -/
theorem C2_terminates_and_at_most_twice_witness :
    (∃ N, ∀ fuel, N ≤ fuel →
      schema_call_hist ex_cfg g_cycle fuel "A2" none none [] none ≠ .error .outOfFuel) ∧
    (∀ fuel res hist, schema_call_hist ex_cfg g_cycle fuel "A2" none none [] none =
        .ok (res, hist) → ∀ r : RelProp, hist.count r ≤ 2) :=
  C2_terminates_and_at_most_twice ex_cfg g_cycle "A2" none none [] none
    (by
      intro m ps hm hp r
      rw [show find_model g_cycle "A2" = Except.ok a2_model from rfl] at hm
      cases hm
      rw [show iterate_props a2_model =
        Except.ok [MProp.colp "a_id" [{ name := "a_id", ctype := int_type }],
          MProp.relp rel_bs, MProp.relp rel_cs] from rfl] at hp
      cases hp
      exact List.nodup_iff_count_le_one.mp (by decide) r)
